import Mathlib

/-!
Shallow embedding of the chess engine core (board representation, attack
and legality oracle, move generation, make/unmake, material evaluation and
minimax search) of the SDL3 chess program, together with theorems checking
the natural-language specification against it.

Conventions of the embedding:
* the 8x8 board is a total function `Fin 8 → Fin 8 → Piece`; the C code
  indexes it with `int` coordinates, so reads performed on raw `int`
  coordinates go through `bget?` (an out-of-range read, undefined behaviour
  in C, is `none`) or, at call sites whose coordinates are always in range,
  through the defaulting getter `bgetD`;
* writes (`bset`) are functional updates guarded by the coordinate range;
  the C code only ever writes squares of generated moves, which are in
  range;
* UI-only fields of `ChessState` (selected square, engine handles,
  textures) play no role in any claim and are omitted;
* machine integers are `Int`; all quantities are far below overflow.
-/

inductive Piece where
  | empty | wp | wn | wb | wr | wq | wk | bp | bn | bb | br | bq | bk
  deriving DecidableEq

abbrev Board := Fin 8 → Fin 8 → Piece

/-- `ChessState`: board, side to move, the four "has castled"/rights-lost
booleans (index 0 = kingside, 1 = queenside in the C arrays) and the
en-passant file, exactly the fields of the C struct that the game logic
reads. -/
@[ext] structure ChessState where
  board : Board
  whiteToMove : Bool
  hasCastledWhite0 : Bool
  hasCastledWhite1 : Bool
  hasCastledBlack0 : Bool
  hasCastledBlack1 : Bool
  enPassantCol : Int
  deriving DecidableEq

structure Move where
  fromRow : Int
  fromCol : Int
  toRow : Int
  toCol : Int
  captured : Piece
  isPromotion : Bool
  isEnPassant : Bool
  isCastling : Bool
  deriving DecidableEq

/-- `UndoInfo` as in the C code; `capturedRow`/`capturedCol` are written only
for en-passant moves (the C code leaves them uninitialized otherwise; the
embedding uses 0, and `unmakeMove` reads them only under the en-passant
flag). -/
structure UndoInfo where
  hasCastledWhite0 : Bool
  hasCastledWhite1 : Bool
  hasCastledBlack0 : Bool
  hasCastledBlack1 : Bool
  enPassantCol : Int
  capturedPiece : Piece
  capturedRow : Int
  capturedCol : Int
  deriving DecidableEq

def inBounds (r c : Int) : Bool :=
  decide (0 ≤ r ∧ r < 8 ∧ 0 ≤ c ∧ c < 8)

/-- Checked board read on `int` coordinates: an out-of-range read (undefined
behaviour in C) is `none`. -/
def bget? (b : Board) (r c : Int) : Option Piece :=
  if h : 0 ≤ r ∧ r < 8 ∧ 0 ≤ c ∧ c < 8 then
    some (b ⟨r.toNat, by omega⟩ ⟨c.toNat, by omega⟩)
  else none

/-- Defaulting board read, used at call sites whose coordinates the C code
keeps in range. -/
def bgetD (b : Board) (r c : Int) : Piece :=
  (bget? b r c).getD .empty

/-- Board write on `int` coordinates as a functional update. -/
def bset (b : Board) (r c : Int) (p : Piece) : Board :=
  fun i j => if (i.val : Int) = r ∧ (j.val : Int) = c then p else b i j

def isWhitePiece : Piece → Bool
  | .wp | .wn | .wb | .wr | .wq | .wk => true
  | _ => false

def isBlackPiece : Piece → Bool
  | .bp | .bn | .bb | .br | .bq | .bk => true
  | _ => false

def sameColor (a b : Piece) : Bool :=
  (isWhitePiece a && isWhitePiece b) || (isBlackPiece a && isBlackPiece b)

/-- One iteration of `pathClear`'s walk per fuel step: read the current
square, then advance by `(dr, dc)`. -/
def pathClearAux (b : Board) (dr dc : Int) : Int → Int → Nat → Bool
  | _, _, 0 => true
  | r, c, n + 1 =>
    if bgetD b r c ≠ .empty then false else pathClearAux b dr dc (r + dr) (c + dc) n

/-- `pathClear`: the C loop steps from `(fr+dr, fc+dc)` up to but excluding
`(tr, tc)`. It is called only by `rookMove`/`bishopMove` on aligned squares,
where it performs exactly `max |tr-fr| |tc-fc| - 1` iterations, the trip
count used here. -/
def pathClear (b : Board) (fr fc tr tc : Int) : Bool :=
  let dr := Int.sign (tr - fr)
  let dc := Int.sign (tc - fc)
  pathClearAux b dr dc (fr + dr) (fc + dc) (max (tr - fr).natAbs (tc - fc).natAbs - 1)

def knightMove (fr fc tr tc : Int) : Bool :=
  decide (((tr - fr).natAbs = 2 ∧ (tc - fc).natAbs = 1) ∨
    ((tr - fr).natAbs = 1 ∧ (tc - fc).natAbs = 2))

def rookMove (b : Board) (fr fc tr tc : Int) : Bool :=
  if fr ≠ tr ∧ fc ≠ tc then false else pathClear b fr fc tr tc

def bishopMove (b : Board) (fr fc tr tc : Int) : Bool :=
  if (fr - tr).natAbs ≠ (fc - tc).natAbs then false else pathClear b fr fc tr tc

def queenMove (b : Board) (fr fc tr tc : Int) : Bool :=
  rookMove b fr fc tr tc || bishopMove b fr fc tr tc

def pawnMove (b : Board) (fr fc tr tc : Int) : Bool :=
  let p := bgetD b fr fc
  let dir : Int := if isWhitePiece p then 1 else -1
  let startRow : Int := if isWhitePiece p then 1 else 6
  if fc = tc ∧ tr = fr + dir ∧ bgetD b tr tc = .empty then true
  else if fc = tc ∧ fr = startRow ∧ tr = fr + 2 * dir ∧
      bgetD b (fr + dir) fc = .empty ∧ bgetD b tr tc = .empty then true
  else if (tc - fc).natAbs = 1 ∧ tr = fr + dir ∧ bgetD b tr tc ≠ .empty then true
  else false

def canPieceAttackSquare (b : Board) (fr fc tr tc : Int) : Bool :=
  if inBounds tr tc = false then false
  else
    match bgetD b fr fc with
    | .empty => false
    | .wp | .bp => pawnMove b fr fc tr tc
    | .wn | .bn => knightMove fr fc tr tc
    | .wb | .bb => bishopMove b fr fc tr tc
    | .wr | .br => rookMove b fr fc tr tc
    | .wq | .bq => queenMove b fr fc tr tc
    | .wk | .bk => decide ((fr - tr).natAbs ≤ 1 ∧ (fc - tc).natAbs ≤ 1)

def range8 : List Int := [0, 1, 2, 3, 4, 5, 6, 7]

/-- All 64 squares in the row-major scan order the C loops use. -/
def squaresL : List (Int × Int) :=
  range8.flatMap fun r => range8.map fun c => (r, c)

def isSquareAttacked (b : Board) (r c : Int) (byWhite : Bool) : Bool :=
  squaresL.any fun q =>
    let p := bgetD b q.1 q.2
    decide (p ≠ .empty) &&
      (if byWhite then isWhitePiece p else isBlackPiece p) &&
      canPieceAttackSquare b q.1 q.2 r c

/-- `isKingInCheck` scans row-major and answers the attack query at the first
king of the given colour it finds (false if there is none). -/
def isKingInCheck (b : Board) (whiteKing : Bool) : Bool :=
  match squaresL.find? (fun q =>
      decide (bgetD b q.1 q.2 = (if whiteKing then Piece.wk else Piece.bk))) with
  | some q => isSquareAttacked b q.1 q.2 (!whiteKing)
  | none => false

/-- Columns strictly between the king file and the rook file, in the order
the C `for` loop visits them (the loop runs `(rookCol - fc) * step - 1`
iterations for the castling destinations, the only call sites). -/
def betweenCols (fc step rookCol : Int) : List Int :=
  (List.range ((rookCol - fc) * step - 1).toNat).map fun k => fc + step * ((k : Int) + 1)

/-- Columns the king transits, start and end inclusive, in C loop order. -/
def transitCols (fc step tc : Int) : List Int :=
  (List.range ((tc - fc) * step + 1).toNat).map fun k => fc + step * (k : Int)

def canCastle (s : ChessState) (fr fc tr tc : Int) : Bool :=
  let king := bgetD s.board fr fc
  let white := isWhitePiece king
  if white ∧ fr ≠ 0 then false
  else if white = false ∧ fr ≠ 7 then false
  else if fc ≠ 4 then false
  else
    let rookCol : Int := if tc = 6 then 7 else 0
    let step : Int := if tc > fc then 1 else -1
    if white ∧ (if tc = 6 then s.hasCastledWhite0 else s.hasCastledWhite1) then false
    else if white = false ∧ (if tc = 6 then s.hasCastledBlack0 else s.hasCastledBlack1) then false
    else if bgetD s.board fr rookCol ≠ (if white then Piece.wr else Piece.br) then false
    else if (betweenCols fc step rookCol).any
        (fun c2 => decide (bgetD s.board fr c2 ≠ .empty)) then false
    else if isKingInCheck s.board white then false
    else if (transitCols fc step tc).any
        (fun c2 => isSquareAttacked s.board fr c2 (!white)) then false
    else true

def kingMove (s : ChessState) (fr fc tr tc : Int) : Bool :=
  if (fr - tr).natAbs ≤ 1 ∧ (fc - tc).natAbs ≤ 1 then true
  else if fr = tr ∧ (tc = 6 ∨ tc = 2) then canCastle s fr fc tr tc
  else false

def pieceOk (s : ChessState) (p : Piece) (fr fc tr tc : Int) : Bool :=
  match p with
  | .empty => false
  | .wp | .bp => pawnMove s.board fr fc tr tc
  | .wn | .bn => knightMove fr fc tr tc
  | .wb | .bb => bishopMove s.board fr fc tr tc
  | .wr | .br => rookMove s.board fr fc tr tc
  | .wq | .bq => queenMove s.board fr fc tr tc
  | .wk | .bk => kingMove s fr fc tr tc

/-- The tail of `isLegalMove` once the moving piece has been read: same-colour
capture rejection, per-piece dispatch, then the simulate-and-check step on a
scratch copy of the board. -/
def isLegalMoveAux (s : ChessState) (p : Piece) (fr fc tr tc : Int) : Bool :=
  let target := bgetD s.board tr tc
  if sameColor p target then false
  else if pieceOk s p fr fc tr tc = false then false
  else
    let copyB := bset (bset s.board tr tc (bgetD s.board fr fc)) fr fc .empty
    let white := isWhitePiece (bgetD copyB tr tc)
    !isKingInCheck copyB white

/-- `isLegalMove`: the C function bounds-checks the destination, then reads
`board[fr][fc]` with no bounds check on the source square; that read is the
checked `bget?`, so a call with an out-of-range source is `none` (undefined
behaviour in C). -/
def isLegalMove? (s : ChessState) (fr fc tr tc : Int) : Option Bool :=
  if inBounds tr tc = false then some false
  else
    match bget? s.board fr fc with
    | none => none
    | some p => if p = .empty then some false else some (isLegalMoveAux s p fr fc tr tc)

/-- Move construction and special-move classification performed by
`getAllMoves` for a square pair that passed `isLegalMove`. -/
def mkMove (s : ChessState) (p : Piece) (r c r2 c2 : Int) : Move :=
  let isCast := (p = Piece.wk ∨ p = Piece.bk) ∧ c = 4 ∧ (c2 - c).natAbs = 2
  let isProm := (p = Piece.wp ∧ r2 = 7) ∨ (p = Piece.bp ∧ r2 = 0)
  let isEP := (p = Piece.wp ∨ p = Piece.bp) ∧ c ≠ c2 ∧ bgetD s.board r2 c2 = Piece.empty
  let capRow : Int := if isWhitePiece p then r2 - 1 else r2 + 1
  { fromRow := r, fromCol := c, toRow := r2, toCol := c2,
    captured := if isEP then bgetD s.board capRow c2 else bgetD s.board r2 c2,
    isPromotion := decide isProm, isEnPassant := decide isEP, isCastling := decide isCast }

def candidateMoves (s : ChessState) (r c : Int) : List Move :=
  let p := bgetD s.board r c
  if p = .empty then []
  else if s.whiteToMove ∧ isBlackPiece p then []
  else if s.whiteToMove = false ∧ isWhitePiece p then []
  else range8.flatMap fun r2 => range8.flatMap fun c2 =>
    if isLegalMove? s r c r2 c2 = some true then [mkMove s p r c r2 c2] else []

/-- `getAllMoves`: all legal moves of the side to move in row-major source /
row-major destination order; the C code stops adding past 256 entries. -/
def getAllMoves (s : ChessState) : List Move :=
  ((range8.flatMap fun r => range8.flatMap fun c => candidateMoves s r c).take 256)

def pieceValue : Piece → Int
  | .empty => 0
  | .wp | .bp => 1
  | .wn | .bn => 3
  | .wb | .bb => 4
  | .wr | .br => 5
  | .wq | .bq => 9
  | .wk | .bk => 0

def evaluateMaterial (s : ChessState) (whitePerspective : Bool) : Int :=
  squaresL.foldl (fun value q =>
    let p := bgetD s.board q.1 q.2
    if p = .empty then value
    else if isWhitePiece p then value + (if whitePerspective then pieceValue p else -pieceValue p)
    else value + (if whitePerspective then -pieceValue p else pieceValue p)) 0

/-- `makeMove`: mutation of the position in the C statement order, returning
the updated position together with the filled undo record (the C function
writes the record through its out-parameter).  The castling-rights writes of
the castling branch and of the generic update are flattened into one
per-flag conditional with the same net effect. -/
def makeMove (s : ChessState) (m : Move) : ChessState × UndoInfo :=
  let undo : UndoInfo :=
    { hasCastledWhite0 := s.hasCastledWhite0
      hasCastledWhite1 := s.hasCastledWhite1
      hasCastledBlack0 := s.hasCastledBlack0
      hasCastledBlack1 := s.hasCastledBlack1
      enPassantCol := s.enPassantCol
      capturedPiece := m.captured
      capturedRow := 0
      capturedCol := 0 }
  let moving := bgetD s.board m.fromRow m.fromCol
  let rookFromCol : Int := if m.toCol = 6 then 7 else 0
  let rookToCol : Int := if m.toCol = 6 then 5 else 3
  let board1 :=
    if m.isCastling then
      bset (bset s.board m.fromRow rookToCol (bgetD s.board m.fromRow rookFromCol))
        m.fromRow rookFromCol .empty
    else s.board
  let cw0 := if m.isCastling ∧ moving = Piece.wk ∧ m.toCol = 6 then true else s.hasCastledWhite0
  let cw1 := if m.isCastling ∧ moving = Piece.wk ∧ m.toCol ≠ 6 then true else s.hasCastledWhite1
  let cb0 := if m.isCastling ∧ moving ≠ Piece.wk ∧ m.toCol = 6 then true else s.hasCastledBlack0
  let cb1 := if m.isCastling ∧ moving ≠ Piece.wk ∧ m.toCol ≠ 6 then true else s.hasCastledBlack1
  let capRowEP : Int := if isWhitePiece moving then m.toRow - 1 else m.toRow + 1
  let board2 := if m.isEnPassant then bset board1 capRowEP m.toCol .empty else board1
  let undo2 := if m.isEnPassant then
      { undo with capturedRow := capRowEP, capturedCol := m.toCol } else undo
  let moving2 := if m.isPromotion then
      (if isWhitePiece moving then Piece.wq else Piece.bq) else moving
  let ep : Int :=
    if (moving2 = Piece.wp ∨ moving2 = Piece.bp) ∧ (m.toRow - m.fromRow).natAbs = 2 then
      m.fromCol else -1
  let cw0f := if moving2 = Piece.wk ∨ (moving2 = Piece.wr ∧ m.fromRow = 0 ∧ m.fromCol = 7) then
      true else cw0
  let cw1f := if moving2 = Piece.wk ∨ (moving2 = Piece.wr ∧ m.fromRow = 0 ∧ m.fromCol = 0) then
      true else cw1
  let cb0f := if moving2 = Piece.bk ∨ (moving2 = Piece.br ∧ m.fromRow = 7 ∧ m.fromCol = 7) then
      true else cb0
  let cb1f := if moving2 = Piece.bk ∨ (moving2 = Piece.br ∧ m.fromRow = 7 ∧ m.fromCol = 0) then
      true else cb1
  let board3 := bset (bset board2 m.toRow m.toCol moving2) m.fromRow m.fromCol .empty
  ({ board := board3
     whiteToMove := !s.whiteToMove
     hasCastledWhite0 := cw0f
     hasCastledWhite1 := cw1f
     hasCastledBlack0 := cb0f
     hasCastledBlack1 := cb1f
     enPassantCol := ep }, undo2)

/-- `unmakeMove`: with a null undo record the C function returns immediately;
otherwise it inverts the move using the record. -/
def unmakeMove (s : ChessState) (m : Move) (u : Option UndoInfo) : ChessState :=
  match u with
  | none => s
  | some undo =>
    let movingA := bgetD s.board m.toRow m.toCol
    let moving := if m.isPromotion then
        (if isWhitePiece movingA then Piece.wp else Piece.bp) else movingA
    let b1 := bset s.board m.fromRow m.fromCol moving
    let b2 := bset b1 m.toRow m.toCol undo.capturedPiece
    let rookFromCol : Int := if m.toCol = 6 then 7 else 0
    let rookToCol : Int := if m.toCol = 6 then 5 else 3
    let b3 := if m.isCastling then
        bset (bset b2 m.fromRow rookFromCol (bgetD b2 m.fromRow rookToCol))
          m.fromRow rookToCol .empty
      else b2
    let b4 := if m.isEnPassant then
        bset (bset b3 undo.capturedRow undo.capturedCol undo.capturedPiece)
          m.toRow m.toCol .empty
      else b3
    { board := b4
      whiteToMove := !s.whiteToMove
      hasCastledWhite0 := undo.hasCastledWhite0
      hasCastledWhite1 := undo.hasCastledWhite1
      hasCastledBlack0 := undo.hasCastledBlack0
      hasCastledBlack1 := undo.hasCastledBlack1
      enPassantCol := undo.enPassantCol }

/-- `minimax` with the make/recurse/unmake pattern of the C code rendered as
recursion on the position produced by `makeMove` (the unmake step restores
the position exactly for generated moves, see the round-trip theorem); the
progress counter side effect is dropped. -/
def minimax (s : ChessState) (depth : Nat) (whitePerspective : Bool) : Int :=
  match depth with
  | 0 => evaluateMaterial s whitePerspective
  | d + 1 =>
    let moves := getAllMoves s
    if moves.isEmpty then
      if isKingInCheck s.board s.whiteToMove then
        (if whitePerspective then -10000 else 10000)
      else 0
    else if whitePerspective then
      moves.foldl (fun best m => max best (minimax (makeMove s m).1 d false)) (-10000)
    else
      moves.foldl (fun best m => min best (minimax (makeMove s m).1 d true)) 10000

def initBoard : Board := fun r c =>
  match r.val, c.val with
  | 0, 0 => .wr | 0, 1 => .wn | 0, 2 => .wb | 0, 3 => .wq
  | 0, 4 => .wk | 0, 5 => .wb | 0, 6 => .wn | 0, 7 => .wr
  | 1, _ => .wp
  | 6, _ => .bp
  | 7, 0 => .br | 7, 1 => .bn | 7, 2 => .bb | 7, 3 => .bq
  | 7, 4 => .bk | 7, 5 => .bb | 7, 6 => .bn | 7, 7 => .br
  | _, _ => .empty

def initChessState : ChessState :=
  { board := initBoard
    whiteToMove := true
    hasCastledWhite0 := false
    hasCastledWhite1 := false
    hasCastledBlack0 := false
    hasCastledBlack1 := false
    enPassantCol := -1 }

def countPiece (b : Board) (p : Piece) : Nat :=
  (squaresL.filter fun q => decide (bgetD b q.1 q.2 = p)).length

def oneKingPerSide (b : Board) : Bool :=
  decide (countPiece b .wk = 1) && decide (countPiece b .bk = 1)

/-! ### Concrete positions used by the evaluation theorems -/

def emptyBoard : Board := fun _ _ => .empty

/-- A board holding a single white pawn on a2 (row 1, column 0). -/
def lonePawnBoard : Board := bset emptyBoard 1 0 .wp

/-- Position before a black double push: white pawn e5 (4,4), black pawn d7
(6,3), white king e1, black king e8, black to move. -/
def doublePushPre : ChessState :=
  { board := bset (bset (bset (bset emptyBoard 4 4 .wp) 6 3 .bp) 0 4 .wk) 7 4 .bk
    whiteToMove := false
    hasCastledWhite0 := false
    hasCastledWhite1 := false
    hasCastledBlack0 := false
    hasCastledBlack1 := false
    enPassantCol := -1 }

/-- The double push d7-d5 as the UI would build it. -/
def doublePush : Move :=
  { fromRow := 6, fromCol := 3, toRow := 4, toCol := 3, captured := .empty,
    isPromotion := false, isEnPassant := false, isCastling := false }

/-- The position after the double push has been applied. -/
def doublePushPost : ChessState := (makeMove doublePushPre doublePush).1

/-- A white king move in `doublePushPost` that is not a pawn double push. -/
def kingSidestep : Move :=
  { fromRow := 0, fromCol := 4, toRow := 0, toCol := 3, captured := .empty,
    isPromotion := false, isEnPassant := false, isCastling := false }

/-- Checkmate position: white king g6 (5,6), white queen g7 (6,6), black king
h8 (7,7), black to move and mated. -/
def mateState : ChessState :=
  { board := bset (bset (bset emptyBoard 5 6 .wk) 6 6 .wq) 7 7 .bk
    whiteToMove := false
    hasCastledWhite0 := false
    hasCastledWhite1 := false
    hasCastledBlack0 := false
    hasCastledBlack1 := false
    enPassantCol := -1 }

/-- A quiet (no capture, no flags) move literal. -/
def mkQuiet (r c r2 c2 : Int) : Move :=
  { fromRow := r, fromCol := c, toRow := r2, toCol := c2, captured := .empty,
    isPromotion := false, isEnPassant := false, isCastling := false }

/-! ### C10 -/

/-- C10: calling `unmakeMove` with a null undo record returns immediately and
leaves the position unchanged. -/
theorem unmake_null_noop (s : ChessState) (m : Move) : unmakeMove s m none = s := rfl

/-! ### C6 -/

/-- C6: `getAllMoves` on the initial position returns exactly 20 moves: the
16 single- and double-square pawn advances and the 4 knight moves, in
generation order. -/
theorem initial_position_twenty_moves :
    (getAllMoves initChessState).length = 20 ∧
    getAllMoves initChessState =
      [mkQuiet 0 1 2 0, mkQuiet 0 1 2 2, mkQuiet 0 6 2 5, mkQuiet 0 6 2 7,
       mkQuiet 1 0 2 0, mkQuiet 1 0 3 0, mkQuiet 1 1 2 1, mkQuiet 1 1 3 1,
       mkQuiet 1 2 2 2, mkQuiet 1 2 3 2, mkQuiet 1 3 2 3, mkQuiet 1 3 3 3,
       mkQuiet 1 4 2 4, mkQuiet 1 4 3 4, mkQuiet 1 5 2 5, mkQuiet 1 5 3 5,
       mkQuiet 1 6 2 6, mkQuiet 1 6 3 6, mkQuiet 1 7 2 7, mkQuiet 1 7 3 7] := by
  decide

/-! ### C3 -/

/-- C3: `isSquareAttacked` uses the full pawn *move* geometry, not the
diagonal-capture geometry the claim states: the white pawn on a2 makes the
empty square a3 straight ahead "attacked", while the empty square b3 one
diagonal capture step away is not attacked. -/
theorem pawn_attack_uses_move_geometry :
    isSquareAttacked lonePawnBoard 2 0 true = true ∧
    isSquareAttacked lonePawnBoard 2 1 true = false := by
  decide

/-! ### C4 -/

/-- C4: after the generated double push d7-d5 the en-passant file is recorded
(3) and then cleared by the next non-double-push move, but the en-passant
capture e5xd6 is rejected by `isLegalMove` and no en-passant move is
generated: `pawnMove` only allows diagonal steps onto occupied squares and
never consults `enPassantCol`. -/
theorem no_en_passant_capture_generated :
    doublePush ∈ getAllMoves doublePushPre ∧
    doublePushPost.enPassantCol = 3 ∧
    isLegalMove? doublePushPost 4 4 5 3 = some false ∧
    (getAllMoves doublePushPost).all (fun m => !m.isEnPassant) = true ∧
    (makeMove doublePushPost kingSidestep).1.enPassantCol = -1 := by
  decide

/-! ### C7 -/

/-- C7 counterexample: the from-square of `isLegalMove` is not bounds-checked;
the renderer's idle call with source (-1,-1) reaches the out-of-bounds board
read `board[-1][-1]` (modelled as the failing lookup `none`), refuting the
claim that evaluation is total with all board accesses in bounds. -/
theorem isLegalMove_oob_from_read :
    isLegalMove? initChessState (-1) (-1) 0 0 = none := by
  decide

/-- C7 amended: the destination is bounds-checked before dispatch and an empty
from-square is rejected before dispatch, and for an in-range from-square
evaluation is total; but an out-of-range from-square reaches the unguarded
board read (see the counterexample). -/
theorem isLegalMove_bounds_discipline (s : ChessState) (fr fc tr tc : Int) :
    (inBounds tr tc = false → isLegalMove? s fr fc tr tc = some false) ∧
    (inBounds fr fc = true → (isLegalMove? s fr fc tr tc).isSome = true) ∧
    (inBounds fr fc = true → bgetD s.board fr fc = .empty →
      isLegalMove? s fr fc tr tc = some false) := by
  have hget : inBounds fr fc = true → bget? s.board fr fc = some (bgetD s.board fr fc) := by
    intro h
    simp only [inBounds, decide_eq_true_eq] at h
    simp [bget?, bgetD, h]
  refine ⟨fun h => by simp [isLegalMove?, h], fun h => ?_, fun h he => ?_⟩
  · unfold isLegalMove?
    rw [hget h]
    rcases htc : inBounds tr tc with _ | _
    · simp
    · simp only [Bool.true_eq_false, if_false]
      split <;> simp
  · unfold isLegalMove?
    rw [hget h, he]
    rcases htc : inBounds tr tc with _ | _
    · simp
    · simp

/-- Witness for the amended C7 theorem at a concrete input. -/
theorem isLegalMove_bounds_discipline_witness :
    inBounds 9 9 = false ∧ isLegalMove? initChessState 0 0 9 9 = some false :=
  ⟨by decide, (isLegalMove_bounds_discipline initChessState 0 0 9 9).1 (by decide)⟩

/-! ### C8 -/

/-- C8 counterexample: in `mateState` Black (the side to move) is checkmated,
so the non-mated side is White; maximizing for White the claim demands a
score favouring White (+10000), but `minimax` returns -10000 because the
mate value depends only on the perspective flag, not on which side is to
move. -/
theorem minimax_mate_value_ignores_side_to_move :
    getAllMoves mateState = [] ∧
    isKingInCheck mateState.board mateState.whiteToMove = true ∧
    mateState.whiteToMove = false ∧
    minimax mateState 1 true = -10000 := by
  decide

/-- C8 amended: depth 0 returns the material evaluation for any perspective;
with no legal moves, a stalemate returns 0 for any perspective, and a
checkmate returns the mate value favouring the non-mated side provided the
maximized perspective coincides with the side to move (as it does at every
call site of `minimax`). -/
theorem minimax_terminal_values (s : ChessState) (d : Nat) (b : Bool) :
    minimax s 0 b = evaluateMaterial s b ∧
    (getAllMoves s = [] →
      (isKingInCheck s.board s.whiteToMove = true → b = s.whiteToMove →
        minimax s (d + 1) b = if b then -10000 else 10000) ∧
      (isKingInCheck s.board s.whiteToMove = false → minimax s (d + 1) b = 0)) := by
  refine ⟨rfl, fun hmoves => ⟨fun hchk _ => ?_, fun hchk => ?_⟩⟩
  · simp [minimax, hmoves, hchk]
  · simp [minimax, hmoves, hchk]

/-- Witness for the amended C8 theorem: the checkmate in `mateState` viewed
from the side to move's own perspective scores +10000 for the mating side. -/
theorem minimax_terminal_values_witness :
    getAllMoves mateState = [] ∧
    isKingInCheck mateState.board mateState.whiteToMove = true ∧
    minimax mateState 1 false = 10000 :=
  ⟨by decide, by decide,
    (((minimax_terminal_values mateState 0 false).2 (by decide)).1 (by decide) (by decide)).trans
      (by decide)⟩

/-! ### Helper lemmas: pieces, board access, lists, arithmetic -/

lemma sameColor_self {p : Piece} (h : p ≠ Piece.empty) : sameColor p p = true := by
  cases p <;> simp_all [sameColor, isWhitePiece, isBlackPiece]

lemma white_or_black {p : Piece} (h : p ≠ Piece.empty) :
    isWhitePiece p = true ∨ isBlackPiece p = true := by
  cases p <;> simp_all [isWhitePiece, isBlackPiece]

lemma mem_range8 {r : Int} : r ∈ range8 ↔ 0 ≤ r ∧ r < 8 := by
  simp only [range8, List.mem_cons, List.not_mem_nil, or_false]
  omega

lemma mem_squaresL {q : Int × Int} :
    q ∈ squaresL ↔ (0 ≤ q.1 ∧ q.1 < 8 ∧ 0 ≤ q.2 ∧ q.2 < 8) := by
  obtain ⟨r, c⟩ := q
  simp only [squaresL, List.mem_flatMap, List.mem_map, Prod.mk.injEq]
  constructor
  · rintro ⟨a, ha, b, hb, rfl, rfl⟩
    have h1 := mem_range8.mp ha
    have h2 := mem_range8.mp hb
    omega
  · rintro ⟨h1, h2, h3, h4⟩
    exact ⟨r, mem_range8.mpr ⟨h1, h2⟩, c, mem_range8.mpr ⟨h3, h4⟩, rfl, rfl⟩

lemma bgetD_of_inb {b : Board} {r c : Int} (h : 0 ≤ r ∧ r < 8 ∧ 0 ≤ c ∧ c < 8) :
    bgetD b r c = b ⟨r.toNat, by omega⟩ ⟨c.toNat, by omega⟩ := by
  simp [bgetD, bget?, h]

lemma bgetD_coords {b : Board} {r c : Int} (i j : Fin 8)
    (hi : (i.val : Int) = r) (hj : (j.val : Int) = c) : bgetD b r c = b i j := by
  subst hi; subst hj
  rw [bgetD_of_inb (by omega)]
  congr 1

lemma bset_apply (b : Board) (r c : Int) (p : Piece) (i j : Fin 8) :
    bset b r c p i j = if (i.val : Int) = r ∧ (j.val : Int) = c then p else b i j := rfl

lemma bgetD_bset {b : Board} {r c : Int} {p : Piece} {r' c' : Int}
    (h : 0 ≤ r' ∧ r' < 8 ∧ 0 ≤ c' ∧ c' < 8) :
    bgetD (bset b r c p) r' c' = if r' = r ∧ c' = c then p else bgetD b r' c' := by
  rw [bgetD_of_inb h, bgetD_of_inb h, bset_apply]
  have h1 : ((r'.toNat : Int)) = r' := by omega
  have h2 : ((c'.toNat : Int)) = c' := by omega
  simp only [h1, h2]

lemma mem_ite_singleton {α} {c : Prop} [Decidable c] {x m : α} :
    m ∈ (if c then [x] else ([] : List α)) ↔ c ∧ m = x := by
  by_cases h : c <;> simp [h]

lemma find_unique {α} {l : List α} {p : α → Bool} {x : α}
    (hx : x ∈ l) (hpx : p x = true) (huniq : ∀ y ∈ l, p y = true → y = x) :
    l.find? p = some x := by
  induction l with
  | nil => cases hx
  | cons a t ih =>
    by_cases ha : p a = true
    · have hax : a = x := huniq a (by simp) ha
      subst hax
      simp [List.find?, ha]
    · have hx' : x ∈ t := by
        rcases List.mem_cons.mp hx with h | h
        · exact absurd (h ▸ hpx) ha
        · exact h
      simp only [List.find?, ha]
      exact ih hx' fun y hy hpy => huniq y (List.mem_cons_of_mem a hy) hpy

lemma two_mem_le_length {α} {l : List α} {x y : α}
    (hx : x ∈ l) (hy : y ∈ l) (hne : x ≠ y) : 2 ≤ l.length := by
  induction l with
  | nil => cases hx
  | cons a t ih =>
    rcases List.mem_cons.mp hx with rfl | hx'
    · rcases List.mem_cons.mp hy with rfl | hy'
      · exact absurd rfl hne
      · have := List.length_pos.mpr (List.ne_nil_of_mem hy')
        simp only [List.length_cons]
        omega
    · have := List.length_pos.mpr (List.ne_nil_of_mem hx')
      simp only [List.length_cons]
      omega

lemma unique_of_count_one {b : Board} {p : Piece} {r c : Int}
    (h1 : countPiece b p = 1) (hrc : (r, c) ∈ squaresL) (hp : bgetD b r c = p) :
    ∀ q ∈ squaresL, bgetD b q.1 q.2 = p → q = (r, c) := by
  intro q hq hqp
  by_contra hne
  have hmem1 : q ∈ squaresL.filter fun q => decide (bgetD b q.1 q.2 = p) :=
    List.mem_filter.mpr ⟨hq, by simp [hqp]⟩
  have hmem2 : (r, c) ∈ squaresL.filter fun q => decide (bgetD b q.1 q.2 = p) :=
    List.mem_filter.mpr ⟨hrc, by simp [hp]⟩
  have := two_mem_le_length hmem1 hmem2 hne
  rw [countPiece] at h1
  omega

lemma sign_cases (x : Int) :
    (0 < x ∧ Int.sign x = 1) ∨ (x = 0 ∧ Int.sign x = 0) ∨ (x < 0 ∧ Int.sign x = -1) := by
  rcases x with (_ | n) | n
  · right; left; exact ⟨rfl, rfl⟩
  · left; exact ⟨Int.ofNat_pos.mpr (Nat.succ_pos n), rfl⟩
  · right; right; exact ⟨Int.negSucc_lt_zero n, rfl⟩

lemma pathClearAux_iff (b : Board) (dr dc : Int) :
    ∀ (n : Nat) (r c : Int),
      pathClearAux b dr dc r c n = true ↔
        ∀ k : Nat, k < n → bgetD b (r + dr * k) (c + dc * k) = .empty := by
  intro n
  induction n with
  | zero => intro r c; simp [pathClearAux]
  | succ n ih =>
    intro r c
    rw [pathClearAux]
    by_cases hrc : bgetD b r c = .empty
    · simp only [hrc, ne_eq, not_true_eq_false, if_false, ih]
      constructor
      · intro hall k hk
        match k with
        | 0 => simpa using hrc
        | k + 1 =>
          have := hall k (by omega)
          have e1 : r + dr + dr * (k : Int) = r + dr * ((k : Int) + 1) := by ring
          have e2 : c + dc + dc * (k : Int) = c + dc * ((k : Int) + 1) := by ring
          rw [e1, e2] at this
          simpa using this
      · intro hall k hk
        have := hall (k + 1) (by omega)
        have e1 : r + dr * (((k : Nat) : Int) + 1) = r + dr + dr * (k : Int) := by ring
        have e2 : c + dc * (((k : Nat) : Int) + 1) = c + dc + dc * (k : Int) := by ring
        simp only [Nat.cast_add, Nat.cast_one] at this
        rw [e1, e2] at this
        exact this
    · simp only [hrc, ne_eq, not_false_eq_true, if_true]
      constructor
      · intro h; cases h
      · intro hall
        have := hall 0 (by omega)
        simp at this
        exact absurd this hrc

lemma pathClear_iff (b : Board) (fr fc tr tc : Int) :
    pathClear b fr fc tr tc = true ↔
      ∀ k : Nat, k < max (tr - fr).natAbs (tc - fc).natAbs - 1 →
        bgetD b (fr + Int.sign (tr - fr) * ((k : Int) + 1))
          (fc + Int.sign (tc - fc) * ((k : Int) + 1)) = .empty := by
  rw [pathClear, pathClearAux_iff]
  constructor
  · intro h k hk
    have := h k hk
    have e1 : fr + Int.sign (tr - fr) + Int.sign (tr - fr) * (k : Int) =
        fr + Int.sign (tr - fr) * ((k : Int) + 1) := by ring
    have e2 : fc + Int.sign (tc - fc) + Int.sign (tc - fc) * (k : Int) =
        fc + Int.sign (tc - fc) * ((k : Int) + 1) := by ring
    rw [e1, e2] at this
    exact this
  · intro h k hk
    have := h k hk
    have e1 : fr + Int.sign (tr - fr) + Int.sign (tr - fr) * (k : Int) =
        fr + Int.sign (tr - fr) * ((k : Int) + 1) := by ring
    have e2 : fc + Int.sign (tc - fc) + Int.sign (tc - fc) * (k : Int) =
        fc + Int.sign (tc - fc) * ((k : Int) + 1) := by ring
    rw [e1, e2]
    exact this

/-! ### Extraction lemmas for the legality oracle and move generation -/

lemma bget?_eq {b : Board} {r c : Int} (h : 0 ≤ r ∧ r < 8 ∧ 0 ≤ c ∧ c < 8) :
    bget? b r c = some (bgetD b r c) := by
  simp [bget?, bgetD, h]

/-- What `isLegalMove = true` guarantees, for an in-range source square. -/
lemma legal_extract {s : ChessState} {fr fc tr tc : Int}
    (hf : 0 ≤ fr ∧ fr < 8 ∧ 0 ≤ fc ∧ fc < 8)
    (h : isLegalMove? s fr fc tr tc = some true) :
    inBounds tr tc = true ∧
    bgetD s.board fr fc ≠ Piece.empty ∧
    sameColor (bgetD s.board fr fc) (bgetD s.board tr tc) = false ∧
    pieceOk s (bgetD s.board fr fc) fr fc tr tc = true ∧
    isKingInCheck (bset (bset s.board tr tc (bgetD s.board fr fc)) fr fc .empty)
      (isWhitePiece
        (bgetD (bset (bset s.board tr tc (bgetD s.board fr fc)) fr fc .empty) tr tc)) =
      false := by
  unfold isLegalMove? at h
  by_cases hb : inBounds tr tc = false
  · rw [if_pos hb] at h; cases h
  · rw [if_neg hb, bget?_eq hf] at h
    dsimp only at h
    by_cases hpe : bgetD s.board fr fc = Piece.empty
    · rw [if_pos hpe] at h; cases h
    · rw [if_neg hpe] at h
      have haux := Option.some.injEq _ _ ▸ h
      unfold isLegalMoveAux at haux
      dsimp only at haux
      by_cases hsc : sameColor (bgetD s.board fr fc) (bgetD s.board tr tc) = true
      · rw [if_pos hsc] at haux; cases haux
      · by_cases hok : pieceOk s (bgetD s.board fr fc) fr fc tr tc = false
        · rw [if_neg hsc, if_pos hok] at haux; cases haux
        · rw [if_neg hsc, if_neg hok] at haux
          refine ⟨by simp_all, hpe, by simp_all, by simp_all, ?_⟩
          simpa using haux

/-- A legal move never has source equal to destination. -/
lemma legal_ne {s : ChessState} {fr fc tr tc : Int}
    (hf : 0 ≤ fr ∧ fr < 8 ∧ 0 ≤ fc ∧ fc < 8)
    (h : isLegalMove? s fr fc tr tc = some true) : ¬(fr = tr ∧ fc = tc) := by
  rintro ⟨rfl, rfl⟩
  obtain ⟨-, hpe, hsc, -, -⟩ := legal_extract hf h
  exact absurd (sameColor_self hpe) (by simp [hsc])

lemma pieceOk_pawn {s : ChessState} {fr fc tr tc : Int}
    (hp : bgetD s.board fr fc = Piece.wp ∨ bgetD s.board fr fc = Piece.bp)
    (hok : pieceOk s (bgetD s.board fr fc) fr fc tr tc = true) :
    pawnMove s.board fr fc tr tc = true := by
  rcases hp with h | h <;> rw [h] at hok <;> exact hok

lemma pieceOk_king {s : ChessState} {fr fc tr tc : Int}
    (hp : bgetD s.board fr fc = Piece.wk ∨ bgetD s.board fr fc = Piece.bk)
    (hok : pieceOk s (bgetD s.board fr fc) fr fc tr tc = true) :
    kingMove s fr fc tr tc = true := by
  rcases hp with h | h <;> rw [h] at hok <;> exact hok

/-- A generated move can never satisfy the en-passant classification: a legal
pawn move that changes file must land on an occupied square. -/
lemma gen_not_ep {s : ChessState} {fr fc tr tc : Int}
    (hf : 0 ≤ fr ∧ fr < 8 ∧ 0 ≤ fc ∧ fc < 8)
    (h : isLegalMove? s fr fc tr tc = some true) :
    ¬((bgetD s.board fr fc = Piece.wp ∨ bgetD s.board fr fc = Piece.bp) ∧
      fc ≠ tc ∧ bgetD s.board tr tc = Piece.empty) := by
  rintro ⟨hp, hcc, hemp⟩
  obtain ⟨-, -, -, hok, -⟩ := legal_extract hf h
  have hpm := pieceOk_pawn hp hok
  rw [pawnMove] at hpm
  simp only [hcc] at hpm
  simp [hemp] at hpm

/-- A generated castling-classified move satisfies `canCastle` and stays on
the back rank. -/
lemma gen_castle_facts {s : ChessState} {fr fc tr tc : Int}
    (hf : 0 ≤ fr ∧ fr < 8 ∧ 0 ≤ fc ∧ fc < 8)
    (h : isLegalMove? s fr fc tr tc = some true)
    (hp : bgetD s.board fr fc = Piece.wk ∨ bgetD s.board fr fc = Piece.bk)
    (habs : (tc - fc).natAbs = 2) :
    tr = fr ∧ (tc = 6 ∨ tc = 2) ∧ canCastle s fr fc tr tc = true := by
  obtain ⟨-, -, -, hok, -⟩ := legal_extract hf h
  have hkm := pieceOk_king hp hok
  rw [kingMove] at hkm
  have hnadj : ¬((fr - tr).natAbs ≤ 1 ∧ (fc - tc).natAbs ≤ 1) := by omega
  rw [if_neg hnadj] at hkm
  by_cases hft : fr = tr ∧ (tc = 6 ∨ tc = 2)
  · rw [if_pos hft] at hkm
    exact ⟨hft.1.symm, hft.2, hkm⟩
  · rw [if_neg hft] at hkm
    cases hkm

/-- `canCastle` soundness, white kingside: everything a successful check
guarantees (rights intact, rook home, between squares empty, no check, no
attacked transit square). -/
lemma canCastle_sound_w6 {s : ChessState} {fr tr : Int}
    (hw : isWhitePiece (bgetD s.board fr 4) = true)
    (h : canCastle s fr 4 tr 6 = true) :
    fr = 0 ∧ s.hasCastledWhite0 = false ∧ bgetD s.board fr 7 = Piece.wr ∧
    bgetD s.board fr 5 = Piece.empty ∧ bgetD s.board fr 6 = Piece.empty ∧
    isKingInCheck s.board true = false ∧
    isSquareAttacked s.board fr 4 false = false ∧
    isSquareAttacked s.board fr 5 false = false ∧
    isSquareAttacked s.board fr 6 false = false := by
  have hbc : betweenCols 4 1 7 = [5, 6] := by decide
  have htc : transitCols 4 1 6 = [4, 5, 6] := by decide
  simp only [canCastle, hw] at h
  norm_num [hbc, htc] at h
  tauto

/-- `canCastle` soundness, white queenside. -/
lemma canCastle_sound_w2 {s : ChessState} {fr tr : Int}
    (hw : isWhitePiece (bgetD s.board fr 4) = true)
    (h : canCastle s fr 4 tr 2 = true) :
    fr = 0 ∧ s.hasCastledWhite1 = false ∧ bgetD s.board fr 0 = Piece.wr ∧
    bgetD s.board fr 3 = Piece.empty ∧ bgetD s.board fr 2 = Piece.empty ∧
    bgetD s.board fr 1 = Piece.empty ∧
    isKingInCheck s.board true = false ∧
    isSquareAttacked s.board fr 4 false = false ∧
    isSquareAttacked s.board fr 3 false = false ∧
    isSquareAttacked s.board fr 2 false = false := by
  have hbc : betweenCols 4 (-1) 0 = [3, 2, 1] := by decide
  have htc : transitCols 4 (-1) 2 = [4, 3, 2] := by decide
  simp only [canCastle, hw] at h
  norm_num [hbc, htc] at h
  tauto

/-- `canCastle` soundness, black kingside. -/
lemma canCastle_sound_b6 {s : ChessState} {fr tr : Int}
    (hw : isWhitePiece (bgetD s.board fr 4) = false)
    (h : canCastle s fr 4 tr 6 = true) :
    fr = 7 ∧ s.hasCastledBlack0 = false ∧ bgetD s.board fr 7 = Piece.br ∧
    bgetD s.board fr 5 = Piece.empty ∧ bgetD s.board fr 6 = Piece.empty ∧
    isKingInCheck s.board false = false ∧
    isSquareAttacked s.board fr 4 true = false ∧
    isSquareAttacked s.board fr 5 true = false ∧
    isSquareAttacked s.board fr 6 true = false := by
  have hbc : betweenCols 4 1 7 = [5, 6] := by decide
  have htc : transitCols 4 1 6 = [4, 5, 6] := by decide
  simp only [canCastle, hw] at h
  norm_num [hbc, htc] at h
  tauto

/-- `canCastle` soundness, black queenside. -/
lemma canCastle_sound_b2 {s : ChessState} {fr tr : Int}
    (hw : isWhitePiece (bgetD s.board fr 4) = false)
    (h : canCastle s fr 4 tr 2 = true) :
    fr = 7 ∧ s.hasCastledBlack1 = false ∧ bgetD s.board fr 0 = Piece.br ∧
    bgetD s.board fr 3 = Piece.empty ∧ bgetD s.board fr 2 = Piece.empty ∧
    bgetD s.board fr 1 = Piece.empty ∧
    isKingInCheck s.board false = false ∧
    isSquareAttacked s.board fr 4 true = false ∧
    isSquareAttacked s.board fr 3 true = false ∧
    isSquareAttacked s.board fr 2 true = false := by
  have hbc : betweenCols 4 (-1) 0 = [3, 2, 1] := by decide
  have htc : transitCols 4 (-1) 2 = [4, 3, 2] := by decide
  simp only [canCastle, hw] at h
  norm_num [hbc, htc] at h
  tauto

/-- Membership in `getAllMoves` unpacked: in-range source and destination, a
piece of the side to move, a successful legality check, and the move literal
built by the generator. -/
lemma exists_of_mem_getAllMoves {s : ChessState} {m : Move} (h : m ∈ getAllMoves s) :
    ∃ r c r2 c2 : Int,
      (0 ≤ r ∧ r < 8 ∧ 0 ≤ c ∧ c < 8) ∧ (0 ≤ r2 ∧ r2 < 8 ∧ 0 ≤ c2 ∧ c2 < 8) ∧
      bgetD s.board r c ≠ Piece.empty ∧
      ¬(s.whiteToMove = true ∧ isBlackPiece (bgetD s.board r c) = true) ∧
      ¬(s.whiteToMove = false ∧ isWhitePiece (bgetD s.board r c) = true) ∧
      isLegalMove? s r c r2 c2 = some true ∧
      m = mkMove s (bgetD s.board r c) r c r2 c2 := by
  unfold getAllMoves at h
  have h' := List.take_subset 256 _ h
  rw [List.mem_flatMap] at h'
  obtain ⟨r, hr, h'⟩ := h'
  rw [List.mem_flatMap] at h'
  obtain ⟨c, hc, h'⟩ := h'
  unfold candidateMoves at h'
  dsimp only at h'
  by_cases hpe : bgetD s.board r c = Piece.empty
  · rw [if_pos hpe] at h'; cases h'
  · rw [if_neg hpe] at h'
    by_cases hw : s.whiteToMove = true ∧ isBlackPiece (bgetD s.board r c) = true
    · rw [if_pos (by simpa using hw)] at h'; cases h'
    · rw [if_neg (by simpa using hw)] at h'
      by_cases hb : s.whiteToMove = false ∧ isWhitePiece (bgetD s.board r c) = true
      · rw [if_pos (by simpa using hb)] at h'; cases h'
      · rw [if_neg (by simpa using hb)] at h'
        rw [List.mem_flatMap] at h'
        obtain ⟨r2, hr2, h'⟩ := h'
        rw [List.mem_flatMap] at h'
        obtain ⟨c2, hc2, h'⟩ := h'
        rw [mem_ite_singleton] at h'
        exact ⟨r, c, r2, c2,
          ⟨(mem_range8.mp hr).1, (mem_range8.mp hr).2,
            (mem_range8.mp hc).1, (mem_range8.mp hc).2⟩,
          ⟨(mem_range8.mp hr2).1, (mem_range8.mp hr2).2,
            (mem_range8.mp hc2).1, (mem_range8.mp hc2).2⟩,
          hpe, hw, hb, h'.1, h'.2⟩

/-! ### C5 -/

/-- C5: with a king on its home square, each of the five violations — rights
flag set for that side and wing, rook missing from its home square, an
occupied square strictly between king and rook, the king in check, or an
attacked transit square (start and end included) — independently makes
`canCastle` return false. -/
theorem canCastle_rejects_violations (s : ChessState) (fr fc tr tc : Int) (w : Bool)
    (hking : bgetD s.board fr fc = (if w then Piece.wk else Piece.bk))
    (hhome : fr = (if w then (0 : Int) else 7))
    (hfc : fc = 4)
    (hwing : tc = 6 ∨ tc = 2)
    (hviol :
      (if w then (if tc = 6 then s.hasCastledWhite0 else s.hasCastledWhite1)
       else (if tc = 6 then s.hasCastledBlack0 else s.hasCastledBlack1)) = true ∨
      bgetD s.board fr (if tc = 6 then 7 else 0) ≠ (if w then Piece.wr else Piece.br) ∨
      (∃ cc ∈ betweenCols 4 (if tc = 6 then 1 else -1) (if tc = 6 then 7 else 0),
        bgetD s.board fr cc ≠ Piece.empty) ∨
      isKingInCheck s.board w = true ∨
      (∃ cc ∈ transitCols 4 (if tc = 6 then 1 else -1) tc,
        isSquareAttacked s.board fr cc (!w) = true)) :
    canCastle s fr fc tr tc = false := by
  subst hfc
  by_contra hne
  have htrue : canCastle s fr 4 tr tc = true := by
    cases hcc : canCastle s fr 4 tr tc
    · exact absurd hcc hne
    · rfl
  have hbc6 : betweenCols 4 1 7 = [5, 6] := by decide
  have htc6 : transitCols 4 1 6 = [4, 5, 6] := by decide
  have hbc2 : betweenCols 4 (-1) 0 = [3, 2, 1] := by decide
  have htc2 : transitCols 4 (-1) 2 = [4, 3, 2] := by decide
  rcases hwing with rfl | rfl
  · rcases w with _ | _
    · have hw : isWhitePiece (bgetD s.board fr 4) = false := by
        simp at hking
        simp [hking, isWhitePiece]
      obtain ⟨-, hflag, hrook, h5, h6, hchk, ha4, ha5, ha6⟩ := canCastle_sound_b6 hw htrue
      rcases hviol with hv | hv | ⟨cc, hcc, hv⟩ | hv | ⟨cc, hcc, hv⟩
      · simp at hv
        exact absurd hv (by simp [hflag])
      · simp at hv
        exact absurd hrook (by simp_all)
      · simp [hbc6] at hcc
        rcases hcc with rfl | rfl <;> simp_all
      · exact absurd hv (by simp [hchk])
      · simp [htc6] at hcc
        rcases hcc with rfl | rfl | rfl <;> simp_all
    · have hw : isWhitePiece (bgetD s.board fr 4) = true := by
        simp at hking
        simp [hking, isWhitePiece]
      obtain ⟨-, hflag, hrook, h5, h6, hchk, ha4, ha5, ha6⟩ := canCastle_sound_w6 hw htrue
      rcases hviol with hv | hv | ⟨cc, hcc, hv⟩ | hv | ⟨cc, hcc, hv⟩
      · simp at hv
        exact absurd hv (by simp [hflag])
      · simp at hv
        exact absurd hrook (by simp_all)
      · simp [hbc6] at hcc
        rcases hcc with rfl | rfl <;> simp_all
      · exact absurd hv (by simp [hchk])
      · simp [htc6] at hcc
        rcases hcc with rfl | rfl | rfl <;> simp_all
  · rcases w with _ | _
    · have hw : isWhitePiece (bgetD s.board fr 4) = false := by
        simp at hking
        simp [hking, isWhitePiece]
      obtain ⟨-, hflag, hrook, h3, h2, h1, hchk, ha4, ha3, ha2⟩ := canCastle_sound_b2 hw htrue
      rcases hviol with hv | hv | ⟨cc, hcc, hv⟩ | hv | ⟨cc, hcc, hv⟩
      · simp at hv
        exact absurd hv (by simp [hflag])
      · simp at hv
        exact absurd hrook (by simp_all)
      · simp [hbc2] at hcc
        rcases hcc with rfl | rfl | rfl <;> simp_all
      · exact absurd hv (by simp [hchk])
      · simp [htc2] at hcc
        rcases hcc with rfl | rfl | rfl <;> simp_all
    · have hw : isWhitePiece (bgetD s.board fr 4) = true := by
        simp at hking
        simp [hking, isWhitePiece]
      obtain ⟨-, hflag, hrook, h3, h2, h1, hchk, ha4, ha3, ha2⟩ := canCastle_sound_w2 hw htrue
      rcases hviol with hv | hv | ⟨cc, hcc, hv⟩ | hv | ⟨cc, hcc, hv⟩
      · simp at hv
        exact absurd hv (by simp [hflag])
      · simp at hv
        exact absurd hrook (by simp_all)
      · simp [hbc2] at hcc
        rcases hcc with rfl | rfl | rfl <;> simp_all
      · exact absurd hv (by simp [hchk])
      · simp [htc2] at hcc
        rcases hcc with rfl | rfl | rfl <;> simp_all

/-- Witness for C5: in the initial position the f1 bishop occupies a square
between king and rook, so white kingside castling is rejected. -/
theorem canCastle_rejects_violations_witness :
    canCastle initChessState 0 4 0 6 = false :=
  canCastle_rejects_violations initChessState 0 4 0 6 true (by decide) (by decide) rfl
    (Or.inl rfl)
    (Or.inr (Or.inr (Or.inl ⟨5, by decide, by decide⟩)))

lemma makeMove_undo {s : ChessState} {m : Move} (he : m.isEnPassant = false) :
    (makeMove s m).2 =
      { hasCastledWhite0 := s.hasCastledWhite0
        hasCastledWhite1 := s.hasCastledWhite1
        hasCastledBlack0 := s.hasCastledBlack0
        hasCastledBlack1 := s.hasCastledBlack1
        enPassantCol := s.enPassantCol
        capturedPiece := m.captured
        capturedRow := 0
        capturedCol := 0 } := by
  simp [makeMove, he]

lemma makeMove_wtm {s : ChessState} {m : Move} :
    (makeMove s m).1.whiteToMove = !s.whiteToMove := rfl

lemma makeMove_board_plain {s : ChessState} {m : Move}
    (hc : m.isCastling = false) (he : m.isEnPassant = false) (hp : m.isPromotion = false) :
    (makeMove s m).1.board =
      bset (bset s.board m.toRow m.toCol (bgetD s.board m.fromRow m.fromCol))
        m.fromRow m.fromCol .empty := by
  simp [makeMove, hc, he, hp]

lemma makeMove_board_promo {s : ChessState} {m : Move}
    (hc : m.isCastling = false) (he : m.isEnPassant = false) (hp : m.isPromotion = true) :
    (makeMove s m).1.board =
      bset (bset s.board m.toRow m.toCol
          (if isWhitePiece (bgetD s.board m.fromRow m.fromCol) then Piece.wq else Piece.bq))
        m.fromRow m.fromCol .empty := by
  simp [makeMove, hc, he, hp]

lemma makeMove_board_castle6 {s : ChessState} {m : Move}
    (hc : m.isCastling = true) (he : m.isEnPassant = false) (hp : m.isPromotion = false)
    (h6 : m.toCol = 6) :
    (makeMove s m).1.board =
      bset (bset (bset (bset s.board m.fromRow 5 (bgetD s.board m.fromRow 7))
            m.fromRow 7 .empty)
          m.toRow m.toCol (bgetD s.board m.fromRow m.fromCol))
        m.fromRow m.fromCol .empty := by
  simp [makeMove, hc, he, hp, h6]

lemma makeMove_board_castle2 {s : ChessState} {m : Move}
    (hc : m.isCastling = true) (he : m.isEnPassant = false) (hp : m.isPromotion = false)
    (h2 : m.toCol = 2) :
    (makeMove s m).1.board =
      bset (bset (bset (bset s.board m.fromRow 3 (bgetD s.board m.fromRow 0))
            m.fromRow 0 .empty)
          m.toRow m.toCol (bgetD s.board m.fromRow m.fromCol))
        m.fromRow m.fromCol .empty := by
  simp [makeMove, hc, he, hp, h2]

lemma bset_roundtrip_two {b : Board} {r c r2 c2 : Int} {Q P : Piece}
    (hfr : 0 ≤ r ∧ r < 8 ∧ 0 ≤ c ∧ c < 8)
    (hne : ¬(r = r2 ∧ c = c2))
    (hP : bgetD b r c = P) :
    bset (bset (bset (bset b r2 c2 Q) r c .empty) r c P) r2 c2 (bgetD b r2 c2) = b := by
  funext i j
  simp only [bset]
  by_cases h2 : ((i.val : Int) = r2 ∧ (j.val : Int) = c2)
  · rw [if_pos h2]
    exact bgetD_coords i j h2.1 h2.2
  · rw [if_neg h2]
    by_cases h1 : ((i.val : Int) = r ∧ (j.val : Int) = c)
    · rw [if_pos h1, ← hP]
      exact bgetD_coords i j h1.1 h1.2
    · rw [if_neg h1, if_neg h1, if_neg h2]

lemma bset_roundtrip_castle6 {b : Board} {r : Int} {P : Piece}
    (hP : bgetD b r 4 = P)
    (h5 : bgetD b r 5 = Piece.empty) :
    bset (bset (bset (bset
      (bset (bset (bset (bset b r 5 (bgetD b r 7)) r 7 .empty) r 6 P) r 4 .empty)
      r 4 P) r 6 (bgetD b r 6)) r 7 (bgetD b r 7)) r 5 .empty = b := by
  funext i j
  simp only [bset]
  by_cases e5 : ((i.val : Int) = r ∧ (j.val : Int) = (5 : Int))
  · rw [if_pos e5, ← bgetD_coords (b := b) i j e5.1 e5.2, h5]
  · rw [if_neg e5]
    by_cases e7 : ((i.val : Int) = r ∧ (j.val : Int) = (7 : Int))
    · rw [if_pos e7]
      exact bgetD_coords i j e7.1 e7.2
    · rw [if_neg e7]
      by_cases e6 : ((i.val : Int) = r ∧ (j.val : Int) = (6 : Int))
      · rw [if_pos e6]
        exact bgetD_coords i j e6.1 e6.2
      · rw [if_neg e6]
        by_cases e4 : ((i.val : Int) = r ∧ (j.val : Int) = (4 : Int))
        · rw [if_pos e4, ← hP]
          exact bgetD_coords i j e4.1 e4.2
        · rw [if_neg e4, if_neg e4, if_neg e6, if_neg e7, if_neg e5]

lemma bset_roundtrip_castle2 {b : Board} {r : Int} {P : Piece}
    (hP : bgetD b r 4 = P)
    (h3 : bgetD b r 3 = Piece.empty) :
    bset (bset (bset (bset
      (bset (bset (bset (bset b r 3 (bgetD b r 0)) r 0 .empty) r 2 P) r 4 .empty)
      r 4 P) r 2 (bgetD b r 2)) r 0 (bgetD b r 0)) r 3 .empty = b := by
  funext i j
  simp only [bset]
  by_cases e3 : ((i.val : Int) = r ∧ (j.val : Int) = (3 : Int))
  · rw [if_pos e3, ← bgetD_coords (b := b) i j e3.1 e3.2, h3]
  · rw [if_neg e3]
    by_cases e0 : ((i.val : Int) = r ∧ (j.val : Int) = (0 : Int))
    · rw [if_pos e0]
      exact bgetD_coords i j e0.1 e0.2
    · rw [if_neg e0]
      by_cases e2 : ((i.val : Int) = r ∧ (j.val : Int) = (2 : Int))
      · rw [if_pos e2]
        exact bgetD_coords i j e2.1 e2.2
      · rw [if_neg e2]
        by_cases e4 : ((i.val : Int) = r ∧ (j.val : Int) = (4 : Int))
        · rw [if_pos e4, ← hP]
          exact bgetD_coords i j e4.1 e4.2
        · rw [if_neg e4, if_neg e4, if_neg e2, if_neg e0, if_neg e3]

lemma mkMove_fromRow (s : ChessState) (p : Piece) (r c r2 c2 : Int) :
    (mkMove s p r c r2 c2).fromRow = r := rfl

lemma mkMove_fromCol (s : ChessState) (p : Piece) (r c r2 c2 : Int) :
    (mkMove s p r c r2 c2).fromCol = c := rfl

lemma mkMove_toRow (s : ChessState) (p : Piece) (r c r2 c2 : Int) :
    (mkMove s p r c r2 c2).toRow = r2 := rfl

lemma mkMove_toCol (s : ChessState) (p : Piece) (r c r2 c2 : Int) :
    (mkMove s p r c r2 c2).toCol = c2 := rfl

set_option maxHeartbeats 1600000 in
/-- C1: applying a generated move with `makeMove` and then `unmakeMove` with
the same undo record restores the position exactly, field for field. -/
theorem make_unmake_roundtrip (s : ChessState) (hk : oneKingPerSide s.board = true)
    (m : Move) (hm : m ∈ getAllMoves s) :
    unmakeMove (makeMove s m).1 m (some (makeMove s m).2) = s := by
  obtain ⟨r, c, r2, c2, hfr, hto, hpne, hwc, hbc, hleg, hmeq⟩ := exists_of_mem_getAllMoves hm
  have hEP := gen_not_ep hfr hleg
  have hne2 : ¬(r = r2 ∧ c = c2) := legal_ne hfr hleg
  subst hmeq
  have hepF : (mkMove s (bgetD s.board r c) r c r2 c2).isEnPassant = false := by
    simp only [mkMove]
    exact decide_eq_false hEP
  have hcapF : (mkMove s (bgetD s.board r c) r c r2 c2).captured = bgetD s.board r2 c2 := by
    simp only [mkMove]
    rw [if_neg hEP]
  have hund := makeMove_undo (s := s) hepF
  simp only [hcapF] at hund
  by_cases hcast : (bgetD s.board r c = Piece.wk ∨ bgetD s.board r c = Piece.bk) ∧
      c = 4 ∧ (c2 - c).natAbs = 2
  · -- castling move
    have hcastT : (mkMove s (bgetD s.board r c) r c r2 c2).isCastling = true := by
      simp only [mkMove]
      exact decide_eq_true hcast
    have hpromF : (mkMove s (bgetD s.board r c) r c r2 c2).isPromotion = false := by
      simp only [mkMove]
      refine decide_eq_false ?_
      rintro (⟨hpw, -⟩ | ⟨hpw, -⟩) <;> rcases hcast.1 with hkk | hkk <;> simp_all
    obtain ⟨hr2, hwing, hcc⟩ := gen_castle_facts hfr hleg hcast.1 hcast.2.2
    subst hr2
    have hc4 : c = 4 := hcast.2.1
    subst hc4
    rcases hwing with h6 | h6
    · -- kingside
      subst h6
      have hbrd := makeMove_board_castle6 (s := s) hcastT hepF hpromF rfl
      simp only [mkMove_fromRow, mkMove_fromCol, mkMove_toRow, mkMove_toCol] at hbrd
      have hbE : bgetD s.board r2 6 = Piece.empty ∧ bgetD s.board r2 5 = Piece.empty := by
        rcases hcast.1 with hkk | hkk
        · have hw : isWhitePiece (bgetD s.board r2 4) = true := by rw [hkk]; rfl
          obtain ⟨-, -, -, h5, h6, -⟩ := canCastle_sound_w6 hw hcc
          exact ⟨h6, h5⟩
        · have hw : isWhitePiece (bgetD s.board r2 4) = false := by rw [hkk]; rfl
          obtain ⟨-, -, -, h5, h6, -⟩ := canCastle_sound_b6 hw hcc
          exact ⟨h6, h5⟩
      have hr8 : 0 ≤ r2 ∧ r2 < 8 := ⟨hfr.1, hfr.2.1⟩
      have hmvA : bgetD (makeMove s (mkMove s (bgetD s.board r2 4) r2 4 r2 6)).1.board r2 6 =
          bgetD s.board r2 4 := by
        rw [hbrd, bgetD_bset (by omega), if_neg (by omega), bgetD_bset (by omega),
          if_pos ⟨rfl, rfl⟩]
      have hX : bgetD (bset (bset
            (makeMove s (mkMove s (bgetD s.board r2 4) r2 4 r2 6)).1.board
            r2 4 (bgetD s.board r2 4)) r2 6 (bgetD s.board r2 6)) r2 5 =
          bgetD s.board r2 7 := by
        rw [bgetD_bset (by omega), if_neg (by omega), bgetD_bset (by omega), if_neg (by omega),
          hbrd, bgetD_bset (by omega), if_neg (by omega), bgetD_bset (by omega),
          if_neg (by omega), bgetD_bset (by omega), if_neg (by omega),
          bgetD_bset (by omega), if_pos ⟨rfl, rfl⟩]
      refine ChessState.ext ?_ ?_ ?_ ?_ ?_ ?_ ?_
      · simp only [unmakeMove, mkMove_fromRow, mkMove_fromCol, mkMove_toRow, mkMove_toCol,
          hcastT, hepF, hpromF, hund, hmvA, if_true, if_false, Bool.false_eq_true]
        rw [hX]
        simp only [hbrd]
        exact bset_roundtrip_castle6 rfl hbE.2
      · simp [unmakeMove, makeMove_wtm]
      · simp only [unmakeMove, hund]
      · simp only [unmakeMove, hund]
      · simp only [unmakeMove, hund]
      · simp only [unmakeMove, hund]
      · simp only [unmakeMove, hund]
    · -- queenside
      subst h6
      have hbrd := makeMove_board_castle2 (s := s) hcastT hepF hpromF rfl
      simp only [mkMove_fromRow, mkMove_fromCol, mkMove_toRow, mkMove_toCol] at hbrd
      have hbE : bgetD s.board r2 2 = Piece.empty ∧ bgetD s.board r2 3 = Piece.empty := by
        rcases hcast.1 with hkk | hkk
        · have hw : isWhitePiece (bgetD s.board r2 4) = true := by rw [hkk]; rfl
          obtain ⟨-, -, -, h3, h2, -⟩ := canCastle_sound_w2 hw hcc
          exact ⟨h2, h3⟩
        · have hw : isWhitePiece (bgetD s.board r2 4) = false := by rw [hkk]; rfl
          obtain ⟨-, -, -, h3, h2, -⟩ := canCastle_sound_b2 hw hcc
          exact ⟨h2, h3⟩
      have hmvA : bgetD (makeMove s (mkMove s (bgetD s.board r2 4) r2 4 r2 2)).1.board r2 2 =
          bgetD s.board r2 4 := by
        rw [hbrd, bgetD_bset (by omega), if_neg (by omega), bgetD_bset (by omega),
          if_pos ⟨rfl, rfl⟩]
      have hX : bgetD (bset (bset
            (makeMove s (mkMove s (bgetD s.board r2 4) r2 4 r2 2)).1.board
            r2 4 (bgetD s.board r2 4)) r2 2 (bgetD s.board r2 2)) r2 3 =
          bgetD s.board r2 0 := by
        rw [bgetD_bset (by omega), if_neg (by omega), bgetD_bset (by omega), if_neg (by omega),
          hbrd, bgetD_bset (by omega), if_neg (by omega), bgetD_bset (by omega),
          if_neg (by omega), bgetD_bset (by omega), if_neg (by omega),
          bgetD_bset (by omega), if_pos ⟨rfl, rfl⟩]
      refine ChessState.ext ?_ ?_ ?_ ?_ ?_ ?_ ?_
      · simp only [unmakeMove, mkMove_fromRow, mkMove_fromCol, mkMove_toRow, mkMove_toCol,
          hcastT, hepF, hpromF, hund, hmvA, if_true, if_false, Bool.false_eq_true,
          show ((2 : Int) = 6) = False by norm_num]
        rw [hX]
        simp only [hbrd]
        exact bset_roundtrip_castle2 rfl hbE.2
      · simp [unmakeMove, makeMove_wtm]
      · simp only [unmakeMove, hund]
      · simp only [unmakeMove, hund]
      · simp only [unmakeMove, hund]
      · simp only [unmakeMove, hund]
      · simp only [unmakeMove, hund]
  · have hcastF : (mkMove s (bgetD s.board r c) r c r2 c2).isCastling = false := by
      simp only [mkMove]
      exact decide_eq_false hcast
    by_cases hprom : (bgetD s.board r c = Piece.wp ∧ r2 = 7) ∨
        (bgetD s.board r c = Piece.bp ∧ r2 = 0)
    · -- promotion move
      have hpromT : (mkMove s (bgetD s.board r c) r c r2 c2).isPromotion = true := by
        simp only [mkMove]
        exact decide_eq_true hprom
      have hbrd := makeMove_board_promo (s := s) hcastF hepF hpromT
      simp only [mkMove_fromRow, mkMove_fromCol, mkMove_toRow, mkMove_toCol] at hbrd
      have hmvA : bgetD (makeMove s (mkMove s (bgetD s.board r c) r c r2 c2)).1.board r2 c2 =
          (if isWhitePiece (bgetD s.board r c) = true then Piece.wq else Piece.bq) := by
        rw [hbrd, bgetD_bset hto, if_neg (fun hh => hne2 ⟨hh.1.symm, hh.2.symm⟩),
          bgetD_bset hto, if_pos ⟨rfl, rfl⟩]
      have hdem : (if isWhitePiece
            (if isWhitePiece (bgetD s.board r c) = true then Piece.wq else Piece.bq) = true
          then Piece.wp else Piece.bp) = bgetD s.board r c := by
        rcases hprom with ⟨hpw, -⟩ | ⟨hpw, -⟩ <;> rw [hpw] <;> rfl
      refine ChessState.ext ?_ ?_ ?_ ?_ ?_ ?_ ?_
      · simp only [unmakeMove, mkMove_fromRow, mkMove_fromCol, mkMove_toRow, mkMove_toCol,
          hcastF, hepF, hpromT, hund, hmvA, if_true, if_false, Bool.false_eq_true]
        simp only [hdem, hbrd]
        exact bset_roundtrip_two hfr hne2 rfl
      · simp [unmakeMove, makeMove_wtm]
      · simp only [unmakeMove, hund]
      · simp only [unmakeMove, hund]
      · simp only [unmakeMove, hund]
      · simp only [unmakeMove, hund]
      · simp only [unmakeMove, hund]
    · -- plain move
      have hpromF : (mkMove s (bgetD s.board r c) r c r2 c2).isPromotion = false := by
        simp only [mkMove]
        exact decide_eq_false hprom
      have hbrd := makeMove_board_plain (s := s) hcastF hepF hpromF
      simp only [mkMove_fromRow, mkMove_fromCol, mkMove_toRow, mkMove_toCol] at hbrd
      have hmvA : bgetD (makeMove s (mkMove s (bgetD s.board r c) r c r2 c2)).1.board r2 c2 =
          bgetD s.board r c := by
        rw [hbrd, bgetD_bset hto, if_neg (fun hh => hne2 ⟨hh.1.symm, hh.2.symm⟩),
          bgetD_bset hto, if_pos ⟨rfl, rfl⟩]
      refine ChessState.ext ?_ ?_ ?_ ?_ ?_ ?_ ?_
      · simp only [unmakeMove, mkMove_fromRow, mkMove_fromCol, mkMove_toRow, mkMove_toCol,
          hcastF, hepF, hpromF, hund, hmvA, if_true, if_false, Bool.false_eq_true]
        simp only [hbrd]
        exact bset_roundtrip_two hfr hne2 rfl
      · simp [unmakeMove, makeMove_wtm]
      · simp only [unmakeMove, hund]
      · simp only [unmakeMove, hund]
      · simp only [unmakeMove, hund]
      · simp only [unmakeMove, hund]
      · simp only [unmakeMove, hund]

/-- Witness for C1: round trip of the first generated move (Nb1-a3) from the
initial position. -/
theorem make_unmake_roundtrip_witness :
    unmakeMove (makeMove initChessState (mkQuiet 0 1 2 0)).1 (mkQuiet 0 1 2 0)
      (some (makeMove initChessState (mkQuiet 0 1 2 0)).2) = initChessState :=
  make_unmake_roundtrip initChessState (by decide) (mkQuiet 0 1 2 0) (by decide)

lemma bgetD_oob {b : Board} {r c : Int} (h : ¬(0 ≤ r ∧ r < 8 ∧ 0 ≤ c ∧ c < 8)) :
    bgetD b r c = Piece.empty := by
  simp [bgetD, bget?, h]

lemma black_not_white {p : Piece} (h : isBlackPiece p = true) : isWhitePiece p = false := by
  cases p <;> simp_all [isWhitePiece, isBlackPiece]

lemma find?_congr {α} {l : List α} {p q : α → Bool} (h : ∀ x ∈ l, p x = q x) :
    l.find? p = l.find? q := by
  induction l with
  | nil => rfl
  | cons a t ih =>
    have ha := h a (by simp)
    simp only [List.find?, ha]
    cases q a
    · exact ih fun x hx => h x (List.mem_cons_of_mem a hx)
    · rfl

lemma any_congr {α} {l : List α} {p q : α → Bool} (h : ∀ x ∈ l, p x = q x) :
    l.any p = l.any q := by
  induction l with
  | nil => rfl
  | cons a t ih =>
    simp only [List.any_cons, h a (by simp), ih fun x hx => h x (List.mem_cons_of_mem a hx)]

lemma pathClearAux_congr {b1 b2 : Board} {dr dc : Int}
    (hempty : ∀ r c : Int, (bgetD b1 r c = Piece.empty ↔ bgetD b2 r c = Piece.empty)) :
    ∀ (n : Nat) (r c : Int), pathClearAux b1 dr dc r c n = pathClearAux b2 dr dc r c n := by
  intro n
  induction n with
  | zero => intro r c; rfl
  | succ n ih =>
    intro r c
    rw [pathClearAux, pathClearAux]
    by_cases h1 : bgetD b1 r c = Piece.empty
    · have h2 := (hempty r c).mp h1
      rw [if_neg (by simp [h1]), if_neg (by simp [h2])]
      exact ih (r + dr) (c + dc)
    · have h2 : ¬bgetD b2 r c = Piece.empty := fun h => h1 ((hempty r c).mpr h)
      rw [if_pos (by simp [h1]), if_pos (by simp [h2])]

lemma pathClear_congr {b1 b2 : Board} {fr fc tr tc : Int}
    (hempty : ∀ r c : Int, (bgetD b1 r c = Piece.empty ↔ bgetD b2 r c = Piece.empty)) :
    pathClear b1 fr fc tr tc = pathClear b2 fr fc tr tc := by
  unfold pathClear
  exact pathClearAux_congr hempty _ _ _

lemma pawnMove_congr {b1 b2 : Board} {fr fc tr tc : Int}
    (hfrom : bgetD b1 fr fc = bgetD b2 fr fc)
    (hempty : ∀ r c : Int, (bgetD b1 r c = Piece.empty ↔ bgetD b2 r c = Piece.empty)) :
    pawnMove b1 fr fc tr tc = pawnMove b2 fr fc tr tc := by
  have e1 : (bgetD b1 tr tc = Piece.empty) = (bgetD b2 tr tc = Piece.empty) :=
    propext (hempty _ _)
  have e2 : ∀ d : Int, (bgetD b1 (fr + d) fc = Piece.empty) =
      (bgetD b2 (fr + d) fc = Piece.empty) := fun d => propext (hempty _ _)
  simp only [pawnMove, ← hfrom, ne_eq, e1, e2]

lemma canPieceAttack_congr {b1 b2 : Board} {fr fc tr tc : Int}
    (hfrom : bgetD b1 fr fc = bgetD b2 fr fc)
    (hempty : ∀ r c : Int, (bgetD b1 r c = Piece.empty ↔ bgetD b2 r c = Piece.empty)) :
    canPieceAttackSquare b1 fr fc tr tc = canPieceAttackSquare b2 fr fc tr tc := by
  unfold canPieceAttackSquare
  rw [← hfrom]
  rcases hb : inBounds tr tc with _ | _
  · simp
  · simp only [Bool.true_eq_false, if_false]
    cases hp : bgetD b1 fr fc <;>
      simp only [rookMove, bishopMove, queenMove] <;>
      first
        | rfl
        | exact pawnMove_congr hfrom hempty
        | rw [pathClear_congr hempty]

lemma isSquareAttacked_subst {b1 b2 : Board} {qr qc tr tc : Int} {byWhite : Bool}
    (hag : ∀ r c : Int, ¬(r = qr ∧ c = qc) → bgetD b1 r c = bgetD b2 r c)
    (hempty : ∀ r c : Int, (bgetD b1 r c = Piece.empty ↔ bgetD b2 r c = Piece.empty))
    (hf1 : (if byWhite then isWhitePiece (bgetD b1 qr qc) else isBlackPiece (bgetD b1 qr qc)) =
      false)
    (hf2 : (if byWhite then isWhitePiece (bgetD b2 qr qc) else isBlackPiece (bgetD b2 qr qc)) =
      false) :
    isSquareAttacked b1 tr tc byWhite = isSquareAttacked b2 tr tc byWhite := by
  unfold isSquareAttacked
  refine any_congr fun x hx => ?_
  by_cases hq : x.1 = qr ∧ x.2 = qc
  · rw [hq.1, hq.2]
    simp [hf1, hf2]
  · have hv := hag x.1 x.2 hq
    rw [hv, canPieceAttack_congr hv hempty]

lemma isKingInCheck_subst {b1 b2 : Board} {w : Bool} {qr qc : Int}
    (hag : ∀ r c : Int, ¬(r = qr ∧ c = qc) → bgetD b1 r c = bgetD b2 r c)
    (hempty : ∀ r c : Int, (bgetD b1 r c = Piece.empty ↔ bgetD b2 r c = Piece.empty))
    (hnk1 : bgetD b1 qr qc ≠ (if w then Piece.wk else Piece.bk))
    (hnk2 : bgetD b2 qr qc ≠ (if w then Piece.wk else Piece.bk))
    (hf1 : (if !w then isWhitePiece (bgetD b1 qr qc) else isBlackPiece (bgetD b1 qr qc)) = false)
    (hf2 : (if !w then isWhitePiece (bgetD b2 qr qc) else isBlackPiece (bgetD b2 qr qc)) = false) :
    isKingInCheck b1 w = isKingInCheck b2 w := by
  unfold isKingInCheck
  rw [find?_congr (q := fun q =>
      decide (bgetD b2 q.1 q.2 = (if w then Piece.wk else Piece.bk))) ?_]
  · cases hfind : squaresL.find? (fun q =>
        decide (bgetD b2 q.1 q.2 = (if w then Piece.wk else Piece.bk))) with
    | none => rfl
    | some K => exact isSquareAttacked_subst hag hempty hf1 hf2
  · intro x hx
    by_cases hq : x.1 = qr ∧ x.2 = qc
    · simp only [hq.1, hq.2]
      simp [hnk1, hnk2]
    · rw [hag x.1 x.2 hq]

lemma isKingInCheck_unique {b : Board} {w : Bool} {kr kc : Int}
    (hin : 0 ≤ kr ∧ kr < 8 ∧ 0 ≤ kc ∧ kc < 8)
    (hkp : bgetD b kr kc = (if w then Piece.wk else Piece.bk))
    (huniq : ∀ r c : Int, (0 ≤ r ∧ r < 8 ∧ 0 ≤ c ∧ c < 8) →
      bgetD b r c = (if w then Piece.wk else Piece.bk) → r = kr ∧ c = kc) :
    isKingInCheck b w = isSquareAttacked b kr kc (!w) := by
  unfold isKingInCheck
  rw [find_unique (x := ((kr, kc) : Int × Int)) (mem_squaresL.mpr (by exact hin))
    (by simp [hkp]) ?_]
  · intro y hy hpy
    have hr := mem_squaresL.mp hy
    simp only [decide_eq_true_eq] at hpy
    have := huniq y.1 y.2 hr hpy
    obtain ⟨y1, y2⟩ := y
    simp only [Prod.mk.injEq]
    exact this

lemma pawnMove_occupied {b : Board} {fr fc tr tc : Int} (h : bgetD b tr tc ≠ Piece.empty) :
    pawnMove b fr fc tr tc =
      decide ((tc - fc).natAbs = 1 ∧
        tr = fr + (if isWhitePiece (bgetD b fr fc) then 1 else -1)) := by
  unfold pawnMove
  dsimp only
  rw [if_neg (by tauto), if_neg (by tauto)]
  by_cases hg : (tc - fc).natAbs = 1 ∧
      tr = fr + (if isWhitePiece (bgetD b fr fc) = true then 1 else -1)
  · rw [if_pos ⟨hg.1, hg.2, h⟩, decide_eq_true (by exact hg)]
  · rw [if_neg (by tauto), eq_comm, decide_eq_false_iff_not]
    exact hg

/-- A square strictly on the walk from an on-board attacker to the castled
king's destination square never coincides with the rook's home square. -/
lemma path_square_ne_rook_home {qr qc kr kc rfc : Int} {k : Nat}
    (hqc : 0 ≤ qc ∧ qc < 8)
    (halign : qr = kr ∨ qc = kc ∨ (qr - kr).natAbs = (qc - kc).natAbs)
    (hk : k < max (kr - qr).natAbs (kc - qc).natAbs - 1)
    (hwing : (kc = 6 ∧ rfc = 7) ∨ (kc = 2 ∧ rfc = 0)) :
    ¬(qr + Int.sign (kr - qr) * ((k : Int) + 1) = kr ∧
      qc + Int.sign (kc - qc) * ((k : Int) + 1) = rfc) := by
  rintro ⟨hx1, hx2⟩
  rcases sign_cases (kr - qr) with ⟨s1, e1⟩ | ⟨s1, e1⟩ | ⟨s1, e1⟩ <;>
    rcases sign_cases (kc - qc) with ⟨s2, e2⟩ | ⟨s2, e2⟩ | ⟨s2, e2⟩ <;>
    rw [e1] at hx1 <;> rw [e2] at hx2 <;>
    rcases halign with h | h | h <;>
    rcases hwing with ⟨hw1, hw2⟩ | ⟨hw1, hw2⟩ <;>
    omega

lemma pathClear_castle_transfer {b1 b2 : Board} {qr qc kr kc rtc rfc : Int}
    (hwing : (kc = 6 ∧ rfc = 7 ∧ rtc = 5) ∨ (kc = 2 ∧ rfc = 0 ∧ rtc = 3))
    (hqc : 0 ≤ qc ∧ qc < 8)
    (halign : qr = kr ∨ qc = kc ∨ (qr - kr).natAbs = (qc - kc).natAbs)
    (hag : ∀ r c : Int, ¬(r = kr ∧ (c = rtc ∨ c = rfc)) → bgetD b1 r c = bgetD b2 r c)
    (hq1 : bgetD b1 kr rtc ≠ Piece.empty)
    (h : pathClear b1 qr qc kr kc = true) :
    pathClear b2 qr qc kr kc = true := by
  rw [pathClear_iff] at h ⊢
  intro k hk
  have he := h k hk
  by_cases hx1 : (qr + Int.sign (kr - qr) * ((k : Int) + 1) = kr ∧
      qc + Int.sign (kc - qc) * ((k : Int) + 1) = rtc)
  · rw [hx1.1, hx1.2] at he
    exact absurd he hq1
  · by_cases hx2 : (qr + Int.sign (kr - qr) * ((k : Int) + 1) = kr ∧
        qc + Int.sign (kc - qc) * ((k : Int) + 1) = rfc)
    · exact absurd hx2 (path_square_ne_rook_home hqc halign hk
        (by rcases hwing with ⟨a, b, c⟩ | ⟨a, b, c⟩ <;> [exact Or.inl ⟨a, b⟩; exact Or.inr ⟨a, b⟩]))
    · rw [← hag _ _ (by tauto)]
      exact he

lemma canPieceAttack_castle_transfer {b1 b2 : Board} {qr qc kr kc rtc rfc : Int}
    (hwing : (kc = 6 ∧ rfc = 7 ∧ rtc = 5) ∨ (kc = 2 ∧ rfc = 0 ∧ rtc = 3))
    (hqin : 0 ≤ qr ∧ qr < 8 ∧ 0 ≤ qc ∧ qc < 8)
    (hqv : bgetD b1 qr qc = bgetD b2 qr qc)
    (hag : ∀ r c : Int, ¬(r = kr ∧ (c = rtc ∨ c = rfc)) → bgetD b1 r c = bgetD b2 r c)
    (hq1 : bgetD b1 kr rtc ≠ Piece.empty)
    (hk1 : bgetD b1 kr kc ≠ Piece.empty)
    (hk2 : bgetD b2 kr kc ≠ Piece.empty)
    (h : canPieceAttackSquare b1 qr qc kr kc = true) :
    canPieceAttackSquare b2 qr qc kr kc = true := by
  unfold canPieceAttackSquare at h ⊢
  rcases hb : inBounds kr kc with _ | _
  · rw [hb] at h
    simp at h
  · rw [hb] at h
    simp only [Bool.true_eq_false, if_false] at h ⊢
    rw [← hqv]
    have hqc8 : 0 ≤ qc ∧ qc < 8 := ⟨hqin.2.2.1, hqin.2.2.2⟩
    cases hp : bgetD b1 qr qc <;> rw [hp] at h <;> simp only
    · exact h
    · rw [pawnMove_occupied hk2, ← hqv, hp]
      rw [pawnMove_occupied hk1, hp] at h
      exact h
    · exact h
    · unfold bishopMove at h ⊢
      by_cases ha : (qr - kr).natAbs ≠ (qc - kc).natAbs
      · rw [if_pos ha] at h
        cases h
      · rw [if_neg ha] at h ⊢
        exact pathClear_castle_transfer hwing hqc8 (Or.inr (Or.inr (by omega))) hag hq1 h
    · unfold rookMove at h ⊢
      by_cases ha : qr ≠ kr ∧ qc ≠ kc
      · rw [if_pos ha] at h
        cases h
      · rw [if_neg ha] at h ⊢
        exact pathClear_castle_transfer hwing hqc8 (by tauto) hag hq1 h
    · unfold queenMove rookMove bishopMove at h ⊢
      rcases (Bool.or_eq_true _ _).mp h with h' | h'
      · refine (Bool.or_eq_true _ _).mpr (Or.inl ?_)
        by_cases ha : qr ≠ kr ∧ qc ≠ kc
        · rw [if_pos ha] at h'
          cases h'
        · rw [if_neg ha] at h' ⊢
          exact pathClear_castle_transfer hwing hqc8 (by tauto) hag hq1 h'
      · refine (Bool.or_eq_true _ _).mpr (Or.inr ?_)
        by_cases ha : (qr - kr).natAbs ≠ (qc - kc).natAbs
        · rw [if_pos ha] at h'
          cases h'
        · rw [if_neg ha] at h' ⊢
          exact pathClear_castle_transfer hwing hqc8 (Or.inr (Or.inr (by omega))) hag hq1 h'
    · exact h
    · rw [pawnMove_occupied hk2, ← hqv, hp]
      rw [pawnMove_occupied hk1, hp] at h
      exact h
    · exact h
    · unfold bishopMove at h ⊢
      by_cases ha : (qr - kr).natAbs ≠ (qc - kc).natAbs
      · rw [if_pos ha] at h
        cases h
      · rw [if_neg ha] at h ⊢
        exact pathClear_castle_transfer hwing hqc8 (Or.inr (Or.inr (by omega))) hag hq1 h
    · unfold rookMove at h ⊢
      by_cases ha : qr ≠ kr ∧ qc ≠ kc
      · rw [if_pos ha] at h
        cases h
      · rw [if_neg ha] at h ⊢
        exact pathClear_castle_transfer hwing hqc8 (by tauto) hag hq1 h
    · unfold queenMove rookMove bishopMove at h ⊢
      rcases (Bool.or_eq_true _ _).mp h with h' | h'
      · refine (Bool.or_eq_true _ _).mpr (Or.inl ?_)
        by_cases ha : qr ≠ kr ∧ qc ≠ kc
        · rw [if_pos ha] at h'
          cases h'
        · rw [if_neg ha] at h' ⊢
          exact pathClear_castle_transfer hwing hqc8 (by tauto) hag hq1 h'
      · refine (Bool.or_eq_true _ _).mpr (Or.inr ?_)
        by_cases ha : (qr - kr).natAbs ≠ (qc - kc).natAbs
        · rw [if_pos ha] at h'
          cases h'
        · rw [if_neg ha] at h' ⊢
          exact pathClear_castle_transfer hwing hqc8 (Or.inr (Or.inr (by omega))) hag hq1 h'
    · exact h

lemma isSquareAttacked_castle_transfer {b1 b2 : Board} {kr kc rtc rfc : Int} {byWhite : Bool}
    (hwing : (kc = 6 ∧ rfc = 7 ∧ rtc = 5) ∨ (kc = 2 ∧ rfc = 0 ∧ rtc = 3))
    (hag : ∀ r c : Int, ¬(r = kr ∧ (c = rtc ∨ c = rfc)) → bgetD b1 r c = bgetD b2 r c)
    (hq1 : bgetD b1 kr rtc ≠ Piece.empty)
    (hq1f : (if byWhite then isWhitePiece (bgetD b1 kr rtc)
      else isBlackPiece (bgetD b1 kr rtc)) = false)
    (hq2 : bgetD b1 kr rfc = Piece.empty)
    (hk1 : bgetD b1 kr kc ≠ Piece.empty)
    (hk2 : bgetD b2 kr kc ≠ Piece.empty)
    (h : isSquareAttacked b1 kr kc byWhite = true) :
    isSquareAttacked b2 kr kc byWhite = true := by
  unfold isSquareAttacked at h ⊢
  rw [List.any_eq_true] at h ⊢
  obtain ⟨q, hqmem, hconj⟩ := h
  refine ⟨q, hqmem, ?_⟩
  dsimp only at hconj ⊢
  rw [Bool.and_eq_true, Bool.and_eq_true] at hconj
  obtain ⟨⟨hpne, hfilt⟩, hcan⟩ := hconj
  have hqin := mem_squaresL.mp hqmem
  by_cases hq1' : q.1 = kr ∧ q.2 = rtc
  · rw [hq1'.1, hq1'.2] at hfilt
    rw [hq1f] at hfilt
    cases hfilt
  · by_cases hq2' : q.1 = kr ∧ q.2 = rfc
    · rw [hq2'.1, hq2'.2] at hpne
      simp [hq2] at hpne
    · have hqv : bgetD b1 q.1 q.2 = bgetD b2 q.1 q.2 := hag q.1 q.2 (by tauto)
      rw [Bool.and_eq_true, Bool.and_eq_true]
      rw [← hqv]
      exact ⟨⟨hpne, hfilt⟩,
        canPieceAttack_castle_transfer hwing hqin hqv hag hq1 hk1 hk2 hcan⟩

lemma white_not_black {p : Piece} (h : isWhitePiece p = true) : isBlackPiece p = false := by
  cases p <;> simp_all [isWhitePiece, isBlackPiece]

lemma oneKing_counts {b : Board} (h : oneKingPerSide b = true) :
    countPiece b Piece.wk = 1 ∧ countPiece b Piece.bk = 1 := by
  unfold oneKingPerSide at h
  rw [Bool.and_eq_true] at h
  exact ⟨by simpa using h.1, by simpa using h.2⟩

set_option maxHeartbeats 2000000 in
/-- After castling, the mover's king (unique on the board) is not in check:
the simulate-and-check step of `isLegalMove` already verified the scratch
position with the king on its destination and the rook still home, and no
attack on the destination can pass through the rook's new square (occupied)
or its old square (geometrically impossible). -/
lemma castle_safe_core {b : Board} {r2 : Int} {w : Bool} {kc rtc rfc : Int}
    (hwing : (kc = 6 ∧ rfc = 7 ∧ rtc = 5) ∨ (kc = 2 ∧ rfc = 0 ∧ rtc = 3))
    (hr : 0 ≤ r2 ∧ r2 < 8)
    (hkk : bgetD b r2 4 = (if w then Piece.wk else Piece.bk))
    (hcount : countPiece b (if w then Piece.wk else Piece.bk) = 1)
    (hrook : bgetD b r2 rfc = (if w then Piece.wr else Piece.br))
    (hscr : isKingInCheck (bset (bset b r2 kc (bgetD b r2 4)) r2 4 Piece.empty) w = false) :
    isKingInCheck
      (bset (bset (bset (bset b r2 rtc (bgetD b r2 rfc)) r2 rfc Piece.empty)
        r2 kc (bgetD b r2 4)) r2 4 Piece.empty) w = false := by
  have hkpne : (if w then Piece.wk else Piece.bk) ≠ Piece.empty := by cases w <;> simp
  have hrookne : (if w then Piece.wr else Piece.br) ≠ Piece.empty := by cases w <;> simp
  have hrooknk : (if w then Piece.wr else Piece.br) ≠ (if w then Piece.wk else Piece.bk) := by
    cases w <;> simp
  have hrookf : (if !w then isWhitePiece (if w then Piece.wr else Piece.br)
      else isBlackPiece (if w then Piece.wr else Piece.br)) = false := by
    cases w <;> simp [isWhitePiece, isBlackPiece]
  have hfacts : kc ≠ 4 ∧ rtc ≠ 4 ∧ rtc ≠ kc ∧ rfc ≠ 4 ∧ rfc ≠ kc ∧ rfc ≠ rtc ∧
      0 ≤ kc ∧ kc < 8 ∧ 0 ≤ rtc ∧ rtc < 8 ∧ 0 ≤ rfc ∧ rfc < 8 := by
    rcases hwing with ⟨a, bb, cc⟩ | ⟨a, bb, cc⟩ <;> subst a <;> subst bb <;> subst cc <;>
      norm_num
  obtain ⟨f1, f2, f3, f4, f5, f6, g1, g2, g3, g4, g5, g6⟩ := hfacts
  have huniqb := unique_of_count_one hcount
    (mem_squaresL.mpr ⟨hr.1, hr.2, by omega, by omega⟩) hkk
  have hB1at6 : bgetD (bset (bset (bset (bset b r2 rtc (bgetD b r2 rfc)) r2 rfc Piece.empty)
      r2 kc (bgetD b r2 4)) r2 4 Piece.empty) r2 kc = (if w then Piece.wk else Piece.bk) := by
    rw [bgetD_bset (by omega), if_neg (by tauto), bgetD_bset (by omega), if_pos ⟨rfl, rfl⟩, hkk]
  have hB1at5 : bgetD (bset (bset (bset (bset b r2 rtc (bgetD b r2 rfc)) r2 rfc Piece.empty)
      r2 kc (bgetD b r2 4)) r2 4 Piece.empty) r2 rtc = (if w then Piece.wr else Piece.br) := by
    rw [bgetD_bset (by omega), if_neg (by tauto), bgetD_bset (by omega), if_neg (by tauto),
      bgetD_bset (by omega), if_neg (by tauto), bgetD_bset (by omega), if_pos ⟨rfl, rfl⟩, hrook]
  have hB1at7 : bgetD (bset (bset (bset (bset b r2 rtc (bgetD b r2 rfc)) r2 rfc Piece.empty)
      r2 kc (bgetD b r2 4)) r2 4 Piece.empty) r2 rfc = Piece.empty := by
    rw [bgetD_bset (by omega), if_neg (by tauto), bgetD_bset (by omega), if_neg (by tauto),
      bgetD_bset (by omega), if_pos ⟨rfl, rfl⟩]
  have hB2at6 : bgetD (bset (bset b r2 kc (bgetD b r2 4)) r2 4 Piece.empty) r2 kc =
      (if w then Piece.wk else Piece.bk) := by
    rw [bgetD_bset (by omega), if_neg (by tauto), bgetD_bset (by omega), if_pos ⟨rfl, rfl⟩, hkk]
  have huniq1 : ∀ rr cc : Int, (0 ≤ rr ∧ rr < 8 ∧ 0 ≤ cc ∧ cc < 8) →
      bgetD (bset (bset (bset (bset b r2 rtc (bgetD b r2 rfc)) r2 rfc Piece.empty)
        r2 kc (bgetD b r2 4)) r2 4 Piece.empty) rr cc = (if w then Piece.wk else Piece.bk) →
      rr = r2 ∧ cc = kc := by
    intro rr cc hin hv
    simp only [bgetD_bset hin] at hv
    by_cases h4 : (rr = r2 ∧ cc = 4)
    · rw [if_pos h4] at hv
      exact absurd hv.symm hkpne
    · rw [if_neg h4] at hv
      by_cases h6 : (rr = r2 ∧ cc = kc)
      · exact h6
      · rw [if_neg h6] at hv
        by_cases h7 : (rr = r2 ∧ cc = rfc)
        · rw [if_pos h7] at hv
          exact absurd hv.symm hkpne
        · rw [if_neg h7] at hv
          by_cases h5 : (rr = r2 ∧ cc = rtc)
          · rw [if_pos h5, hrook] at hv
            exact absurd hv hrooknk
          · rw [if_neg h5] at hv
            have := huniqb (rr, cc) (mem_squaresL.mpr hin) hv
            rw [Prod.mk.injEq] at this
            exact absurd this h4
  have huniq2 : ∀ rr cc : Int, (0 ≤ rr ∧ rr < 8 ∧ 0 ≤ cc ∧ cc < 8) →
      bgetD (bset (bset b r2 kc (bgetD b r2 4)) r2 4 Piece.empty) rr cc =
        (if w then Piece.wk else Piece.bk) →
      rr = r2 ∧ cc = kc := by
    intro rr cc hin hv
    simp only [bgetD_bset hin] at hv
    by_cases h4 : (rr = r2 ∧ cc = 4)
    · rw [if_pos h4] at hv
      exact absurd hv.symm hkpne
    · rw [if_neg h4] at hv
      by_cases h6 : (rr = r2 ∧ cc = kc)
      · exact h6
      · rw [if_neg h6] at hv
        have := huniqb (rr, cc) (mem_squaresL.mpr hin) hv
        rw [Prod.mk.injEq] at this
        exact absurd this h4
  have hchk1eq := isKingInCheck_unique (w := w) ⟨hr.1, hr.2, by omega, by omega⟩ hB1at6 huniq1
  have hchk2eq := isKingInCheck_unique (w := w) ⟨hr.1, hr.2, by omega, by omega⟩ hB2at6 huniq2
  rw [hchk2eq] at hscr
  rw [hchk1eq]
  cases hat1 : isSquareAttacked (bset (bset (bset (bset b r2 rtc (bgetD b r2 rfc))
      r2 rfc Piece.empty) r2 kc (bgetD b r2 4)) r2 4 Piece.empty) r2 kc (!w)
  · rfl
  · exfalso
    have hag : ∀ rr cc : Int, ¬(rr = r2 ∧ (cc = rtc ∨ cc = rfc)) →
        bgetD (bset (bset (bset (bset b r2 rtc (bgetD b r2 rfc)) r2 rfc Piece.empty)
          r2 kc (bgetD b r2 4)) r2 4 Piece.empty) rr cc =
        bgetD (bset (bset b r2 kc (bgetD b r2 4)) r2 4 Piece.empty) rr cc := by
      intro rr cc hnq
      by_cases hin : (0 ≤ rr ∧ rr < 8 ∧ 0 ≤ cc ∧ cc < 8)
      · simp only [bgetD_bset hin]
        split_ifs <;> first | rfl | tauto
      · rw [bgetD_oob hin, bgetD_oob hin]
    have htrans := @isSquareAttacked_castle_transfer _ _ _ _ _ _ (!w) hwing hag
      (by rw [hB1at5]; exact hrookne)
      (by rw [hB1at5]; exact hrookf)
      hB1at7
      (by rw [hB1at6]; exact hkpne)
      (by rw [hB2at6]; exact hkpne)
      hat1
    rw [hscr] at htrans
    cases htrans

set_option maxHeartbeats 1600000 in
/-- C2: no generated move leaves the mover's own king in check after the move
is applied with `makeMove`. -/
theorem generated_moves_king_safe (s : ChessState) (hk : oneKingPerSide s.board = true)
    (m : Move) (hm : m ∈ getAllMoves s) :
    isKingInCheck (makeMove s m).1.board s.whiteToMove = false := by
  obtain ⟨r, c, r2, c2, hfr, hto, hpne, hwc, hbc, hleg, hmeq⟩ := exists_of_mem_getAllMoves hm
  have hEP := gen_not_ep hfr hleg
  have hne2 := legal_ne hfr hleg
  subst hmeq
  obtain ⟨hinb, -, -, hok, hchk⟩ := legal_extract hfr hleg
  have hscrP : bgetD (bset (bset s.board r2 c2 (bgetD s.board r c)) r c .empty) r2 c2 =
      bgetD s.board r c := by
    rw [bgetD_bset hto, if_neg (fun hh => hne2 ⟨hh.1.symm, hh.2.symm⟩), bgetD_bset hto,
      if_pos ⟨rfl, rfl⟩]
  rw [hscrP] at hchk
  have hcolor : isWhitePiece (bgetD s.board r c) = s.whiteToMove := by
    rcases white_or_black hpne with hw | hb
    · rw [hw]
      cases hwtm : s.whiteToMove
      · exact absurd ⟨hwtm, hw⟩ hbc
      · rfl
    · rw [black_not_white hb]
      cases hwtm : s.whiteToMove
      · rfl
      · exact absurd ⟨hwtm, hb⟩ hwc
  rw [hcolor] at hchk
  have hepF : (mkMove s (bgetD s.board r c) r c r2 c2).isEnPassant = false := by
    simp only [mkMove]
    exact decide_eq_false hEP
  by_cases hcast : (bgetD s.board r c = Piece.wk ∨ bgetD s.board r c = Piece.bk) ∧
      c = 4 ∧ (c2 - c).natAbs = 2
  · have hcastT : (mkMove s (bgetD s.board r c) r c r2 c2).isCastling = true := by
      simp only [mkMove]
      exact decide_eq_true hcast
    have hpromF : (mkMove s (bgetD s.board r c) r c r2 c2).isPromotion = false := by
      simp only [mkMove]
      refine decide_eq_false ?_
      rintro (⟨hpw, -⟩ | ⟨hpw, -⟩) <;> rcases hcast.1 with hkk | hkk <;> simp_all
    obtain ⟨hr2, hwing, hcc⟩ := gen_castle_facts hfr hleg hcast.1 hcast.2.2
    subst hr2
    have hc4 : c = 4 := hcast.2.1
    subst hc4
    have hkk' : bgetD s.board r2 4 = (if s.whiteToMove then Piece.wk else Piece.bk) := by
      rcases hcast.1 with h | h
      · have hww : s.whiteToMove = true := by rw [← hcolor, h]; rfl
        simp [hww, h]
      · have hww : s.whiteToMove = false := by rw [← hcolor, h]; rfl
        simp [hww, h]
    have hcnt : countPiece s.board (if s.whiteToMove then Piece.wk else Piece.bk) = 1 := by
      cases hwtm : s.whiteToMove
      · simpa using (oneKing_counts hk).2
      · simpa using (oneKing_counts hk).1
    rcases hwing with h6 | h6
    · subst h6
      have hbrd := makeMove_board_castle6 (s := s) hcastT hepF hpromF rfl
      simp only [mkMove_fromRow, mkMove_fromCol, mkMove_toRow, mkMove_toCol] at hbrd
      have hrook' : bgetD s.board r2 7 = (if s.whiteToMove then Piece.wr else Piece.br) := by
        cases hwtm : s.whiteToMove
        · have hw : isWhitePiece (bgetD s.board r2 4) = false := by rw [hcolor, hwtm]
          obtain ⟨-, -, hrook, -⟩ := canCastle_sound_b6 hw hcc
          simpa using hrook
        · have hw : isWhitePiece (bgetD s.board r2 4) = true := by rw [hcolor, hwtm]
          obtain ⟨-, -, hrook, -⟩ := canCastle_sound_w6 hw hcc
          simpa using hrook
      rw [hbrd]
      exact castle_safe_core (Or.inl ⟨rfl, rfl, rfl⟩) ⟨hfr.1, hfr.2.1⟩ hkk' hcnt hrook' hchk
    · subst h6
      have hbrd := makeMove_board_castle2 (s := s) hcastT hepF hpromF rfl
      simp only [mkMove_fromRow, mkMove_fromCol, mkMove_toRow, mkMove_toCol] at hbrd
      have hrook' : bgetD s.board r2 0 = (if s.whiteToMove then Piece.wr else Piece.br) := by
        cases hwtm : s.whiteToMove
        · have hw : isWhitePiece (bgetD s.board r2 4) = false := by rw [hcolor, hwtm]
          obtain ⟨-, -, hrook, -⟩ := canCastle_sound_b2 hw hcc
          simpa using hrook
        · have hw : isWhitePiece (bgetD s.board r2 4) = true := by rw [hcolor, hwtm]
          obtain ⟨-, -, hrook, -⟩ := canCastle_sound_w2 hw hcc
          simpa using hrook
      rw [hbrd]
      exact castle_safe_core (Or.inr ⟨rfl, rfl, rfl⟩) ⟨hfr.1, hfr.2.1⟩ hkk' hcnt hrook' hchk
  · have hcastF : (mkMove s (bgetD s.board r c) r c r2 c2).isCastling = false := by
      simp only [mkMove]
      exact decide_eq_false hcast
    by_cases hprom : (bgetD s.board r c = Piece.wp ∧ r2 = 7) ∨
        (bgetD s.board r c = Piece.bp ∧ r2 = 0)
    · have hpromT : (mkMove s (bgetD s.board r c) r c r2 c2).isPromotion = true := by
        simp only [mkMove]
        exact decide_eq_true hprom
      have hbrd := makeMove_board_promo (s := s) hcastF hepF hpromT
      simp only [mkMove_fromRow, mkMove_fromCol, mkMove_toRow, mkMove_toCol] at hbrd
      rw [hbrd]
      have hQne : (if isWhitePiece (bgetD s.board r c) = true then Piece.wq else Piece.bq) ≠
          Piece.empty := by
        split <;> simp
      have hv1 : bgetD (bset (bset s.board r2 c2
            (if isWhitePiece (bgetD s.board r c) = true then Piece.wq else Piece.bq))
            r c .empty) r2 c2 =
          (if isWhitePiece (bgetD s.board r c) = true then Piece.wq else Piece.bq) := by
        rw [bgetD_bset hto, if_neg (fun hh => hne2 ⟨hh.1.symm, hh.2.symm⟩), bgetD_bset hto,
          if_pos ⟨rfl, rfl⟩]
      rw [@isKingInCheck_subst _
        (bset (bset s.board r2 c2 (bgetD s.board r c)) r c .empty) _ r2 c2 ?_ ?_ ?_ ?_ ?_ ?_]
      · exact hchk
      · intro rr cc hnq
        by_cases hin : (0 ≤ rr ∧ rr < 8 ∧ 0 ≤ cc ∧ cc < 8)
        · simp only [bgetD_bset hin]
          split_ifs <;> rfl
        · rw [bgetD_oob hin, bgetD_oob hin]
      · intro rr cc
        by_cases hin : (0 ≤ rr ∧ rr < 8 ∧ 0 ≤ cc ∧ cc < 8)
        · simp only [bgetD_bset hin]
          split_ifs <;> first | exact Iff.rfl | simp [hpne]
        · rw [bgetD_oob hin, bgetD_oob hin]
      · rw [hv1]
        rcases Bool.eq_false_or_eq_true (isWhitePiece (bgetD s.board r c)) with hw | hw <;>
          rcases Bool.eq_false_or_eq_true s.whiteToMove with ht | ht <;>
          simp [hw, ht]
      · rw [hscrP]
        rcases hprom with ⟨hp, -⟩ | ⟨hp, -⟩ <;> rw [hp] <;> cases s.whiteToMove <;> simp
      · rw [hv1]
        cases hwtm : s.whiteToMove
        · have hw : isWhitePiece (bgetD s.board r c) = false := by rw [hcolor, hwtm]
          rw [hw]
          decide
        · have hw : isWhitePiece (bgetD s.board r c) = true := by rw [hcolor, hwtm]
          rw [hw]
          decide
      · rw [hscrP]
        cases hwtm : s.whiteToMove
        · have hw : isWhitePiece (bgetD s.board r c) = false := by rw [hcolor, hwtm]
          simp [hw]
        · have hw : isWhitePiece (bgetD s.board r c) = true := by rw [hcolor, hwtm]
          simp [white_not_black hw]
    · have hpromF : (mkMove s (bgetD s.board r c) r c r2 c2).isPromotion = false := by
        simp only [mkMove]
        exact decide_eq_false hprom
      have hbrd := makeMove_board_plain (s := s) hcastF hepF hpromF
      simp only [mkMove_fromRow, mkMove_fromCol, mkMove_toRow, mkMove_toCol] at hbrd
      rw [hbrd]
      exact hchk

/-- Witness for C2: applying the first generated move (Nb1-a3) from the
initial position leaves the white king out of check. -/
theorem generated_moves_king_safe_witness :
    isKingInCheck (makeMove initChessState (mkQuiet 0 1 2 0)).1.board
      initChessState.whiteToMove = false :=
  generated_moves_king_safe initChessState (by decide) (mkQuiet 0 1 2 0) (by decide)
